import Mathlib

/-!
Verification of the source-location resolution engine of `show-component`
(`src/core/source-location-resolver.ts`), shallowly embedded in Lean.

Modelling conventions:
* JavaScript strings are Lean `String`s; all string manipulation is routed
  through `List Char` helpers so that proofs stay in list land.
* The mutable module state (the two bounded caches, the dev-server
  availability flag) is an explicit `World` record threaded through each
  function, and every network request is recorded in `World.requests`.
* External library calls (`fetch`, `JSON.parse`, `SourceMapConsumer`,
  `convert-source-map`, `atob`, `decodeURIComponent`, `new URL`) are
  deterministic oracles collected in an `Env` record.
* A JavaScript function that can throw is embedded with result type
  `Except String _`; `resolveLocation`'s top-level try/catch eliminates
  the exception into `none`, exactly as in the source.
-/

namespace ShowComponent

/-! ## List/string helpers (JS string primitives) -/

/-- Tests whether the second list is an initial segment of the first
(the list form of JS `String.prototype.startsWith`). -/
def hasLead : List Char → List Char → Bool
  | _, [] => true
  | [], _ :: _ => false
  | c :: cs, d :: ds => c == d && hasLead cs ds

/-- JS `s.startsWith(p)`. -/
def strStartsWith (s p : String) : Bool := hasLead s.data p.data

/-- JS `s.includes(p)`: some suffix of `s` starts with `p`. -/
def subLead : List Char → List Char → Bool
  | l, p => hasLead l p ||
    match l with
    | [] => false
    | _ :: t => subLead t p

/-- JS `s.includes(p)`. -/
def strContains (s p : String) : Bool := subLead s.data p.data

/-- JS `s.slice(n)` / dropping an anchored literal match of length `n`. -/
def strDrop (s : String) (n : Nat) : String := String.mk (s.data.drop n)

/-- JS `s.trim()` restricted to ASCII whitespace (the unicode whitespace
code points that JS also trims do not occur in the strings this code
manipulates). -/
def jsTrim (s : String) : String :=
  String.mk (((s.data.dropWhile Char.isWhitespace).reverse.dropWhile Char.isWhitespace).reverse)

/-- The directory part of a pathname: everything up to and including the
last slash, as computed by `pathname.substring(0, pathname.lastIndexOf('/') + 1)`
(empty when there is no slash, exactly as `lastIndexOf` returning -1 yields
`substring(0, 0)`). -/
def pathDir (p : String) : String :=
  String.mk ((p.data.reverse.dropWhile (fun c => !(c == '/'))).reverse)

/-- JS `root.replace(/\/+$/, '')`: strip all trailing slashes. -/
def stripTrailingSlashes (s : String) : String :=
  String.mk ((s.data.reverse.dropWhile (fun c => c == '/')).reverse)

/-! ## A faithful executable model of the JS regexes used by the parser

The three stack-frame patterns of `extractStackFrameInfo` are sequences of
literal characters and greedy character-class quantifiers, so a regex is
embedded as a `List RItem` and matched with the exact backtracking
priority of a JS engine: a quantifier first tries its maximal run, then
shrinks; the first start position admitting a match wins. -/

/-- One element of a compiled pattern: a literal character, or a greedy
character-class quantifier (`+` when `min1`, else `*`), capturing iff `cap`. -/
inductive RItem where
  | lit : Char → RItem
  | rep : (Char → Bool) → Bool → Bool → RItem
deriving Inhabited

/-- The greedy quantifier loop: try consuming `n` characters, then `n - 1`,
…, down to `minRep`, resuming the continuation `k` on the rest of the
input after each attempt; the first attempt whose continuation succeeds
wins, and the consumed prefix is prepended to the captures when `cap`. -/
def matchRepK (k : List Char → Option (List String)) (cap : Bool) (s : List Char)
    (minRep : Nat) : Nat → Option (List String)
  | 0 =>
    if minRep = 0 then
      match k s with
      | some caps => some (if cap then String.mk [] :: caps else caps)
      | none => none
    else none
  | n + 1 =>
    if n + 1 < minRep then none
    else
      match k (s.drop (n + 1)) with
      | some caps => some (if cap then String.mk (s.take (n + 1)) :: caps else caps)
      | none => matchRepK k cap s minRep n

/-- Backtracking matcher for a compiled pattern, anchored at the head of
`s`: returns the list of captured substrings (in group order) of the
highest-priority match, or `none`. The match need not consume all of `s`.
A quantifier starts from its maximal run (the length of the
`takeWhile`), matching JS greediness. -/
def matchItems : List RItem → List Char → Option (List String)
  | [], _ => some []
  | .lit c :: items, s =>
    match s with
    | [] => none
    | x :: rest => if x == c then matchItems items rest else none
  | .rep f min1 cap :: items, s =>
    matchRepK (fun s2 => matchItems items s2) cap s (if min1 then 1 else 0)
      ((s.takeWhile f).length)

/-- Unanchored search (JS `string.match`): try each start position from the
left and return the captures of the first position that matches. -/
def searchFrom (items : List RItem) : List Char → Option (List String)
  | [] => matchItems items []
  | s@(_ :: t) =>
    match matchItems items s with
    | some caps => some caps
    | none => searchFrom items t

/-- The JS `\s` class, restricted to ASCII whitespace (the exotic unicode
whitespace code points never occur in stack-trace lines). -/
def jsWs (c : Char) : Bool := c.isWhitespace

/-- The JS `.` class: any character except a line terminator. -/
def jsDot (c : Char) : Bool := !(c == '\n') && !(c == '\r')

/-- Compiled form of `/at\s+([^(]+)\s*\((.+):(\d+):(\d+)\)/`. -/
def chromeFnPattern : List RItem :=
  [.lit 'a', .lit 't', .rep jsWs true false,
   .rep (fun c => !(c == '(')) true true,
   .rep jsWs false false, .lit '(',
   .rep jsDot true true, .lit ':',
   .rep Char.isDigit true true, .lit ':',
   .rep Char.isDigit true true, .lit ')']

/-- Compiled form of `/at\s+(.+):(\d+):(\d+)/`. -/
def chromeBarePattern : List RItem :=
  [.lit 'a', .lit 't', .rep jsWs true false,
   .rep jsDot true true, .lit ':',
   .rep Char.isDigit true true, .lit ':',
   .rep Char.isDigit true true]

/-- Compiled form of `/([^@]+)@(.+):(\d+):(\d+)/` (Firefox/Safari). -/
def firefoxPattern : List RItem :=
  [.rep (fun c => !(c == '@')) true true, .lit '@',
   .rep jsDot true true, .lit ':',
   .rep Char.isDigit true true, .lit ':',
   .rep Char.isDigit true true]

/-! ## Data model (`StackFrameInfo`, `OriginalSourceInfo`, `ResolvedSourceInfo`) -/

/-- `Number.parseInt(s, 10)` on the digit-only strings captured by a `\d+`
group: the numeric value of the decimal digits. -/
def parseIntD (s : String) : Int :=
  Int.ofNat (s.data.foldl (fun acc c => acc * 10 + (c.toNat - 48)) 0)

/-- One parsed stack-trace frame. -/
structure StackFrameInfo where
  url : String
  line : Int
  column : Int
  functionName : Option String := none
deriving DecidableEq, Repr, Inhabited

/-- A position in original (authored) source. -/
structure OriginalSourceInfo where
  source : String
  line : Int
  column : Int
  name : Option String := none
deriving DecidableEq, Repr, Inhabited

/-- `OriginalSourceInfo` plus the embedded original file text, when available. -/
structure ResolvedSourceInfo where
  source : String
  line : Int
  column : Int
  name : Option String := none
  sourceContent : Option String := none
deriving DecidableEq, Repr, Inhabited

/-- Decoded source text and raw source-map JSON for one generated file
(the L2 cache value). -/
structure CachedSourceMapData where
  sourceContent : String
  sourceMapContent : String
deriving DecidableEq, Repr, Inhabited

/-- `x || undefined` on a JS `string | null | undefined` value: empty
strings and null collapse to undefined. -/
def orUndefined : Option String → Option String
  | some s => if s = "" then none else some s
  | none => none

/-! ## `extractStackFrameInfo` -/

/-- Extracts URL, line, and column from a stack trace frame, trying the
Chrome/V8 parenthesised form, the bare Chrome/V8 form, then the
Firefox/Safari `@` form, exactly as the three-pattern loop in the source. -/
def extractStackFrameInfo (stackLine : String) : Option StackFrameInfo :=
  match searchFrom chromeFnPattern stackLine.data with
  | some [g1, g2, g3, g4] =>
    some { functionName := some (jsTrim g1), url := g2, line := parseIntD g3, column := parseIntD g4 }
  | _ =>
    match searchFrom chromeBarePattern stackLine.data with
    | some [g1, g2, g3] =>
      some { url := g1, line := parseIntD g2, column := parseIntD g3 }
    | _ =>
      match searchFrom firefoxPattern stackLine.data with
      | some [g1, g2, g3, g4] =>
        some { functionName := some (jsTrim g1), url := g2, line := parseIntD g3, column := parseIntD g4 }
      | _ => none

/-! ## Bounded caches -/

def MAX_RESULT_CACHE_SIZE : Nat := 500
def MAX_SOURCE_MAP_CACHE_SIZE : Nat := 100

/-- Sets a value on an insertion-ordered map (a JS `Map` modelled as an
association list with unique keys), evicting the oldest entry if the map
exceeds `maxSize`: delete the key to refresh its position, append it, and
if the size now exceeds `maxSize` delete the first (oldest) key. -/
def boundedSet {V : Type} (m : List (String × V)) (k : String) (v : V) (maxSize : Nat) :
    List (String × V) :=
  let m1 := (m.filter (fun p => !(p.1 == k))) ++ [(k, v)]
  if maxSize < m1.length then
    match m1 with
    | [] => []
    | p :: _ => m1.filter (fun q => !(q.1 == p.1))
  else m1

/-! ## The effect model: requests, responses, external oracles, world state -/

/-- The structured body of the `POST /__nextjs_original-stack-frames`
request (the JSON serialization also carries the constant fields
`arguments: []`, `isServer: true`, `isEdgeServer: false`,
`isAppDirectory: true`, which are omitted as they never vary). -/
structure NextFramePost where
  file : String
  methodName : String
  line1 : Int
  column1 : Int
deriving DecidableEq, Repr, Inhabited

/-- An HTTP request issued by the engine. -/
structure Request where
  method : String
  url : String
  body : Option NextFramePost := none
deriving DecidableEq, Repr, Inhabited

/-- A GET request. -/
def Request.get (u : String) : Request := { method := "GET", url := u }

/-- An HTTP response delivered by the environment. -/
structure HttpResponse where
  status : Nat
  statusText : String
  body : String
deriving DecidableEq, Repr, Inhabited

/-- `Response.ok`: status in the 2xx range. -/
def HttpResponse.ok (r : HttpResponse) : Bool :=
  decide (200 ≤ r.status) && decide (r.status < 300)

/-- The `originalStackFrame` member of the dev-server response. -/
structure NextRespFrame where
  file : Option String
  methodName : String
  line1 : Option Int
  column1 : Option Int
  ignored : Bool
deriving DecidableEq, Repr, Inhabited

/-- One element of the `NextOriginalStackFramesResponse` array. -/
inductive NextFrameResult where
  | fulfilled : Option NextRespFrame → Option String → NextFrameResult
  | rejected : String → NextFrameResult
deriving DecidableEq, Repr, Inhabited

/-- The components of a parsed `new URL(u)`. -/
structure UrlParts where
  protocol : String
  host : String
  pathname : String
  origin : String
deriving DecidableEq, Repr, Inhabited

/-- The result of `SourceMapConsumer.originalPositionFor` (fields may be null). -/
structure OrigPos where
  source : Option String
  line : Option Int
  column : Option Int
  name : Option String
deriving DecidableEq, Repr, Inhabited

/-- A parsed source map together with its consumer: the declared
`sourceRoot`, the position lookup, and the embedded-content lookup. -/
structure SourceMapModel where
  sourceRoot : Option String
  originalPositionFor : Int → Int → OrigPos
  sourceContentFor : String → Option String

/-- The deterministic external world: the page origin, the configured and
global source roots, and oracles for every external library call. A `none`
result of a fallible oracle models that call throwing. -/
structure Env where
  origin : String
  sourceRootCfg : Option String := none
  windowSourceRoot : Option String := none
  fetch : Request → Option HttpResponse
  jsonNextFrames : String → Option (List NextFrameResult) := fun _ => none
  inlineMap : String → Option String := fun _ => none
  atobFn : String → Option String := fun _ => none
  decodeURIComp : String → Option String := fun s => some s
  encodeURIComp : String → String := fun s => s
  parseUrl : String → Option UrlParts := fun _ => none
  resolveUrlPathname : String → String → Option String := fun _ _ => none
  parseSourceMap : String → Option SourceMapModel := fun _ => none

/-- The module-level mutable state: both caches, the dev-server
availability flag, plus the log of issued network requests. -/
structure World where
  resultCache : List (String × ResolvedSourceInfo) := []
  sourceMapCache : List (String × CachedSourceMapData) := []
  nextDevServerAvailable : Option Bool := none
  requests : List Request := []
deriving DecidableEq, Repr, Inhabited

/-- Appends a request to the log. -/
def recordRequest (w : World) (r : Request) : World :=
  { w with requests := w.requests ++ [r] }

/-- One `fetch` call: the request is recorded, then the environment either
rejects (network error, modelled as a thrown error) or delivers a response. -/
def doFetch (env : Env) (w : World) (req : Request) : Except String HttpResponse × World :=
  let w1 := recordRequest w req
  match env.fetch req with
  | none => (.error "TypeError: Failed to fetch", w1)
  | some resp => (.ok resp, w1)

/-! ## Source-root configuration and path resolution -/

/-- `configureSourceRoot`: the stored value is the argument with trailing
slashes stripped when it is a non-empty string, else undefined. -/
def configureSourceRoot (root : Option String) : Option String :=
  match root with
  | some r => if r = "" then none else some (stripTrailingSlashes r)
  | none => none

/-- `getSourceRoot`: the explicitly configured root, falling back to the
`window.__SHOW_COMPONENT_SOURCE_ROOT__` global. -/
def getSourceRoot (env : Env) : Option String :=
  match env.sourceRootCfg with
  | some r => some r
  | none => env.windowSourceRoot

/-- Resolves a potentially-relative source path from a source map against
the URL of the file that contained the source map, mirroring each branch
of the source function in order. -/
def resolveSourcePath (env : Env) (rawSource : String) (sourceMapSourceRoot : Option String)
    (sourceFileUrl : String) : String :=
  if strStartsWith rawSource "file://" && strStartsWith (strDrop rawSource 7) "/" then
    strDrop rawSource 7
  else if strStartsWith rawSource "/" && !(strStartsWith rawSource "//") then
    if strContains rawSource "/src/" || strContains rawSource "/node_modules/" then rawSource
    else
      match getSourceRoot env with
      | some fsRoot => if fsRoot = "" then rawSource else fsRoot ++ rawSource
      | none => rawSource
  else
    let s1 := if strStartsWith rawSource "webpack:///" then strDrop rawSource 11 else rawSource
    let cleaned0 := if strStartsWith s1 "./" then strDrop s1 2
      else if strStartsWith s1 "." then strDrop s1 1 else s1
    let cleaned1 :=
      match sourceMapSourceRoot with
      | some sr =>
        if !(sr == "") && !(sr == "/") then stripTrailingSlashes sr ++ "/" ++ cleaned0 else cleaned0
      | none => cleaned0
    let cleaned2 :=
      if !(strStartsWith cleaned1 "/") && !(strStartsWith cleaned1 "http") then
        match env.parseUrl sourceFileUrl with
        | none => cleaned1
        | some base =>
          let joined := pathDir base.pathname ++ cleaned1
          match env.resolveUrlPathname joined base.origin with
          | none => joined
          | some p => p
      else cleaned1
    match getSourceRoot env with
    | some fsRoot =>
      if !(fsRoot == "") && strStartsWith cleaned2 "/" then fsRoot ++ cleaned2 else cleaned2
    | none => cleaned2

/-! ## URL classification -/

/-- Returns true when the URL uses a known React Server Component debug scheme. -/
def isReactServerUrl (url : String) : Bool :=
  strStartsWith url "rsc://React/Server/" || strStartsWith url "about://React/Server/"

/-- Returns true when the URL is a Next.js-specific RSC URL (contains the
`/.next/` build-output marker). -/
def isNextjsRscUrl (url : String) : Bool :=
  isReactServerUrl url && strContains url "/.next/"

/-- The lazy group `(.+?)(\?.*)?$` of `REACT_SERVER_URL_RE`: the shortest
nonempty prefix whose remainder is empty or a query string; no line
terminator may appear anywhere in the matched text. -/
def rscCaptureRest (r : String) : Option String :=
  match r.data with
  | [] => none
  | c :: rest =>
    if (c :: rest).all jsDot then some (String.mk (c :: rest.takeWhile (fun x => !(x == '?'))))
    else none

/-- The first capture of `REACT_SERVER_URL_RE` applied to the URL. -/
def rscUrlMatch (url : String) : Option String :=
  if strStartsWith url "rsc://React/Server/file://" then
    rscCaptureRest (strDrop url "rsc://React/Server/file://".length)
  else if strStartsWith url "about://React/Server/file://" then
    rscCaptureRest (strDrop url "about://React/Server/file://".length)
  else none

/-- Extracts the absolute filesystem path from an RSC debug URL,
URL-decoding it and keeping the raw path when decoding throws. -/
def extractFilePathFromRscUrl (env : Env) (rscUrl : String) : Option String :=
  match rscUrlMatch rscUrl with
  | none => none
  | some captured => some ((env.decodeURIComp captured).getD captured)

/-- A character admissible in a URL scheme after the leading letter. -/
def schemeChar (c : Char) : Bool := c.isAlpha || c.isDigit || c == '+' || c == '.' || c == '-'

/-- The test `/^[a-zA-Z][a-zA-Z0-9+.-]*:\/\//.test(url)` on the character
list: a leading letter, the maximal run of scheme characters (the class
excludes `:`, so the greedy star is deterministic), then `://`. -/
def schemeSlashSlashTestL : List Char → Bool
  | [] => false
  | c :: rest => c.isAlpha && hasLead (rest.dropWhile schemeChar) [':', '/', '/']

/-- The test `/^[a-zA-Z][a-zA-Z0-9+.-]*:\/\//.test(url)`. -/
def schemeSlashSlashTest (url : String) : Bool :=
  schemeSlashSlashTestL url.data

/-- Returns true when the URL uses a scheme that we cannot fetch; relative
URLs (leading slash) and http(s) are fine, anything else with a
`scheme://` shape is non-fetchable. -/
def hasNonFetchableScheme (url : String) : Bool :=
  if strStartsWith url "/" || strStartsWith url "http://" || strStartsWith url "https://" then false
  else schemeSlashSlashTest url

/-! ## Source fetching and source-map loading -/

/-- Fetches a source file over HTTP: fails fast on a non-fetchable scheme
(before any network call), resolves root-relative URLs against the
origin, and throws on a non-2xx response; on success returns the content
and the effective URL used. -/
def fetchSourceFile (env : Env) (w : World) (url : String) :
    Except String (String × String) × World :=
  if hasNonFetchableScheme url then
    (.error ("Non-fetchable URL scheme: " ++ url), w)
  else
    match doFetch env w
        (Request.get (if strStartsWith url "http" then url else env.origin ++ url)) with
    | (.error e, w1) => (.error e, w1)
    | (.ok resp, w1) =>
      if resp.ok then
        (.ok (resp.body, if strStartsWith url "http" then url else env.origin ++ url), w1)
      else
        (.error ("Failed to fetch source file: " ++ toString resp.status ++ " " ++ resp.statusText),
         w1)

/-- The regex `^\/\/[@#]\s*sourceMappingURL=(.+)$` applied to one
(already trimmed) line. -/
def sourceMappingCommentMatch (t : String) : Option String :=
  match t.data with
  | '/' :: '/' :: m :: rest =>
    if m == '@' || m == '#' then
      let r2 := rest.dropWhile jsWs
      if hasLead r2 "sourceMappingURL=".data then
        let cap := r2.drop "sourceMappingURL=".length
        if !cap.isEmpty && cap.all jsDot then some (String.mk cap) else none
      else none
    else none
  | _ => none

/-- Returns "inline" for data-URL source maps, the external URL for a
trailing `sourceMappingURL` comment found in the last 10 lines (scanned
bottom-up), or none. -/
def extractSourceMapUrl (env : Env) (sourceContent : String) : Option String :=
  if (env.inlineMap sourceContent).isSome then some "inline"
  else
    let lines := sourceContent.splitOn "\n"
    ((lines.drop (lines.length - 10)).reverse).findSome? (fun l =>
      (sourceMappingCommentMatch (jsTrim l)).map jsTrim)

/-- The capture of `(.+)$` at the end of an anchored data-URL regex. -/
def capRestAll (s : String) : Option String :=
  if !s.data.isEmpty && s.data.all jsDot then some s else none

/-- The regex `^data:application\/json;(?:charset=utf-8;)?base64,(.+)$`. -/
def dataUrlBase64Match (u : String) : Option String :=
  if strStartsWith u "data:application/json;" then
    let r := strDrop u "data:application/json;".length
    let r := if strStartsWith r "charset=utf-8;" then strDrop r "charset=utf-8;".length else r
    if strStartsWith r "base64," then capRestAll (strDrop r "base64,".length) else none
  else none

/-- The regex `^data:application\/json;charset=utf-8,(.+)$`. -/
def dataUrlPlainMatch (u : String) : Option String :=
  if strStartsWith u "data:application/json;charset=utf-8," then
    capRestAll (strDrop u "data:application/json;charset=utf-8,".length)
  else none

/-- Fetches an external source map, soft-failing to `none` both on a
network error and on a non-2xx response (the throw on a bad status sits
inside the try/catch of the source). -/
def fetchExternalMap (env : Env) (w : World) (absoluteSourceMapUrl : String) :
    Except String (Option String) × World :=
  match doFetch env w (Request.get absoluteSourceMapUrl) with
  | (.error _, w1) => (.ok none, w1)
  | (.ok resp, w1) => if resp.ok then (.ok (some resp.body), w1) else (.ok none, w1)

/-- Resolves source map content: inline data URL, raw data-URL fallback, or
an external map fetched over HTTP (soft-failing to `none` on fetch errors,
but propagating `atob`/`decodeURIComponent`/`new URL` exceptions). -/
def resolveSourceMap (env : Env) (w : World) (sourceContent sourceUrl : String) :
    Except String (Option String) × World :=
  match extractSourceMapUrl env sourceContent with
  | none => (.ok none, w)
  | some sourceMapUrl =>
    if sourceMapUrl = "inline" then (.ok (env.inlineMap sourceContent), w)
    else if strStartsWith sourceMapUrl "data:" then
      match dataUrlBase64Match sourceMapUrl with
      | some b64 =>
        match env.atobFn b64 with
        | some j => (.ok (some j), w)
        | none => (.error "InvalidCharacterError: atob failed", w)
      | none =>
        match dataUrlPlainMatch sourceMapUrl with
        | some enc =>
          match env.decodeURIComp enc with
          | some j => (.ok (some j), w)
          | none => (.error "URIError: URI malformed", w)
        | none => (.ok none, w)
    else if strStartsWith sourceMapUrl "http" then fetchExternalMap env w sourceMapUrl
    else
      match env.parseUrl sourceUrl with
      | none => (.error "TypeError: Invalid URL", w)
      | some baseUrl =>
        if strStartsWith sourceMapUrl "/" then
          fetchExternalMap env w (baseUrl.protocol ++ "//" ++ baseUrl.host ++ sourceMapUrl)
        else
          fetchExternalMap env w
            (baseUrl.protocol ++ "//" ++ baseUrl.host ++ pathDir baseUrl.pathname ++ sourceMapUrl)

/-! ## Position mapping -/

/-- Maps a generated position to the original source via the source map;
every internal failure (JSON parse, consumer construction, no mapping at
the position) is caught and yields `none`. Returns the raw original info
together with the map's declared `sourceRoot`. -/
def mapToOriginalSource (env : Env) (frameInfo : StackFrameInfo) (sourceMapContent : String) :
    Option (OriginalSourceInfo × Option String) :=
  match env.parseSourceMap sourceMapContent with
  | none => none
  | some sm =>
    let pos := sm.originalPositionFor frameInfo.line frameInfo.column
    match pos.source, pos.line, pos.column with
    | some src, some l, some c =>
      if src = "" then none
      else
        some ({ source := src, line := l, column := c,
                name := orUndefined pos.name }, sm.sourceRoot)
    | _, _, _ => none

/-- Retrieves the original source content embedded in the source map, if
available; failures are caught and yield `none`. -/
def getOriginalSourceContent (env : Env) (originalInfo : OriginalSourceInfo)
    (sourceMapContent : String) : Option String :=
  match env.parseSourceMap sourceMapContent with
  | none => none
  | some sm => sm.sourceContentFor originalInfo.source

/-! ## Next.js dev-server fast path -/

/-- The `POST /__nextjs_original-stack-frames` request for one frame. -/
def nextPostRequest (env : Env) (filePath : String) (frameInfo : StackFrameInfo) : Request :=
  { method := "POST", url := env.origin ++ "/__nextjs_original-stack-frames",
    body := some
      { file := filePath,
        methodName :=
          match frameInfo.functionName with
          | some f => if f = "" then "<unknown>" else f
          | none => "<unknown>",
        line1 := frameInfo.line, column1 := frameInfo.column } }

/-- The dev-server probe from the POST onward: issue the request, handle
the 404/availability bookkeeping, parse the response and convert the first
fulfilled frame into a resolved location. Every failure yields `none`. -/
def nextPostStep (env : Env) (w : World) (frameInfo : StackFrameInfo) (filePath : String) :
    Option ResolvedSourceInfo × World :=
  match doFetch env w (nextPostRequest env filePath frameInfo) with
  | (.error _, w1) => (none, w1)
  | (.ok resp, w1) =>
    if !resp.ok then
      if resp.status == 404 then (none, { w1 with nextDevServerAvailable := some false })
      else (none, w1)
    else
      let w2 := { w1 with nextDevServerAvailable := some true }
      match env.jsonNextFrames resp.body with
      | none => (none, w2)
      | some [] => (none, w2)
      | some (.rejected _ :: _) => (none, w2)
      | some (.fulfilled none _ :: _) => (none, w2)
      | some (.fulfilled (some osf) _ :: _) =>
        let sourcePath :=
          match osf.file with
          | some f => if f = "" then frameInfo.url else f
          | none => frameInfo.url
        let sourcePath :=
          if !(sourcePath == "") && !(strStartsWith sourcePath "/") &&
             !(strStartsWith sourcePath "file://") && !(strContains sourcePath "://") then
            match getSourceRoot env with
            | some fsRoot => if fsRoot = "" then sourcePath else fsRoot ++ "/" ++ sourcePath
            | none => sourcePath
          else sourcePath
        (some { source := sourcePath,
                line := osf.line1.getD frameInfo.line,
                column := osf.column1.getD frameInfo.column,
                name := if osf.methodName = "" then none else some osf.methodName },
         w2)

/-- Resolves an RSC stack frame via the dev server's full-resolution
endpoint; every failure is caught and yields `none`. A 404 marks the
endpoint unavailable; a previous 404 short-circuits before any request. -/
def resolveViaNextDevServer (env : Env) (w : World) (frameInfo : StackFrameInfo)
    (_debug : Bool) : Option ResolvedSourceInfo × World :=
  if w.nextDevServerAvailable == some false then (none, w)
  else
    match extractFilePathFromRscUrl env frameInfo.url with
    | none => (none, w)
    | some filePath => nextPostStep env w frameInfo filePath

/-- The `GET /__nextjs_source-map?filename=…` request. -/
def nextMapRequest (env : Env) (filePath : String) : Request :=
  Request.get (env.origin ++ "/__nextjs_source-map?filename=" ++ env.encodeURIComp filePath)

/-- Fetches a raw source map from the dev server's source-map endpoint;
failures are caught and yield `none`. -/
def fetchSourceMapFromNextDevServer (env : Env) (w : World) (filePath : String)
    (_debug : Bool) : Option String × World :=
  match doFetch env w (nextMapRequest env filePath) with
  | (.error _, w1) => (none, w1)
  | (.ok resp, w1) => if resp.ok then (some resp.body, w1) else (none, w1)

/-! ## The resolution orchestrator -/

/-- The L1 cache key built from a parsed frame. -/
def cacheKeyOf (fi : StackFrameInfo) : String :=
  fi.url ++ ":" ++ toString fi.line ++ ":" ++ toString fi.column

/-- Strategy 2 of the RSC fast path, for an already-extracted file path:
fetch the raw source map from the dev server, map the position
client-side, resolve the path, and cache the assembled result. -/
def rscStrategy2 (env : Env) (w : World) (frameInfo : StackFrameInfo) (cacheKey : String)
    (filePath : String) (debug : Bool) : Option ResolvedSourceInfo × World :=
  match fetchSourceMapFromNextDevServer env w filePath debug with
  | (none, w2) => (none, w2)
  | (some sourceMapContent, w2) =>
    match mapToOriginalSource env frameInfo sourceMapContent with
    | none => (none, w2)
    | some (info, smRoot) =>
      let resolvedSource := resolveSourcePath env info.source smRoot frameInfo.url
      let originalSourceContent := getOriginalSourceContent env info sourceMapContent
      let result : ResolvedSourceInfo :=
        { source := resolvedSource, line := info.line, column := info.column,
          name := info.name, sourceContent := orUndefined originalSourceContent }
      (some result,
       { w2 with resultCache := boundedSet w2.resultCache cacheKey result MAX_RESULT_CACHE_SIZE })

/-- The Next.js RSC fast path of `resolveLocation`: Strategy 1 (server-side
resolution), then Strategy 2 (raw source map + client-side mapping); on
success the result is stored in the L1 cache. Never throws. -/
def rscFastPath (env : Env) (w : World) (frameInfo : StackFrameInfo) (cacheKey : String)
    (debug : Bool) : Option ResolvedSourceInfo × World :=
  match resolveViaNextDevServer env w frameInfo debug with
  | (some nextResult, w1) =>
    (some nextResult,
     { w1 with resultCache := boundedSet w1.resultCache cacheKey nextResult MAX_RESULT_CACHE_SIZE })
  | (none, w1) =>
    match extractFilePathFromRscUrl env frameInfo.url with
    | none => (none, w1)
    | some filePath => rscStrategy2 env w1 frameInfo cacheKey filePath debug

/-- The tail of the standard path shared by the L2-hit and L2-miss branches:
map the position, resolve the path, look up embedded content by the raw
source path, assemble and cache the result. Never throws. -/
def standardFinish (env : Env) (w : World) (frameInfo : StackFrameInfo) (cacheKey : String)
    (sourceMapData : CachedSourceMapData) (effectiveUrl : String) :
    Option ResolvedSourceInfo × World :=
  match mapToOriginalSource env frameInfo sourceMapData.sourceMapContent with
  | none => (none, w)
  | some (info, smRoot) =>
    let rawSource := info.source
    let resolvedSource := resolveSourcePath env rawSource smRoot effectiveUrl
    let originalInfo : OriginalSourceInfo := { info with source := resolvedSource }
    let originalSourceContent :=
      getOriginalSourceContent env { originalInfo with source := rawSource }
        sourceMapData.sourceMapContent
    let result : ResolvedSourceInfo :=
      { source := originalInfo.source, line := originalInfo.line, column := originalInfo.column,
        name := originalInfo.name, sourceContent := orUndefined originalSourceContent }
    (some result,
     { w with resultCache := boundedSet w.resultCache cacheKey result MAX_RESULT_CACHE_SIZE })

/-- Stores freshly loaded source-map data in the L2 cache, keyed by the
requested URL and — when it differs — also by the effective URL. -/
def cacheMapData (w : World) (url effectiveUrl : String) (smd : CachedSourceMapData) : World :=
  let c3 := boundedSet w.sourceMapCache url smd MAX_SOURCE_MAP_CACHE_SIZE
  let w3 := { w with sourceMapCache := c3 }
  if url = effectiveUrl then w3
  else
    let c4 := boundedSet w3.sourceMapCache effectiveUrl smd MAX_SOURCE_MAP_CACHE_SIZE
    { w3 with sourceMapCache := c4 }

/-- The standard (non-RSC) path of `resolveLocation`: L2 cache by URL, else
fetch the file, locate and load its source map (exceptions propagate), and
store the map data keyed by both the requested and the effective URL. -/
def standardPath (env : Env) (w : World) (frameInfo : StackFrameInfo) (cacheKey : String) :
    Except String (Option ResolvedSourceInfo) × World :=
  match List.lookup frameInfo.url w.sourceMapCache with
  | some sourceMapData =>
    let (r, w1) := standardFinish env w frameInfo cacheKey sourceMapData frameInfo.url
    (.ok r, w1)
  | none =>
    match fetchSourceFile env w frameInfo.url with
    | (.error e, w1) => (.error e, w1)
    | (.ok (content, effectiveUrl), w1) =>
      match resolveSourceMap env w1 content effectiveUrl with
      | (.error e, w2) => (.error e, w2)
      | (.ok none, w2) => (.ok none, w2)
      | (.ok (some sourceMapContent), w2) =>
        match standardFinish env
            (cacheMapData w2 frameInfo.url effectiveUrl
              { sourceContent := content, sourceMapContent := sourceMapContent })
            frameInfo cacheKey
            { sourceContent := content, sourceMapContent := sourceMapContent } effectiveUrl with
        | (r, w5) => (.ok r, w5)

/-- The body of `resolveLocation` after frame extraction: consult the L1
cache by the frame's key, then dispatch to the RSC fast path or the
standard path. -/
def resolveLocationCore (env : Env) (w : World) (frameInfo : StackFrameInfo) (debug : Bool) :
    Except String (Option ResolvedSourceInfo) × World :=
  match List.lookup (cacheKeyOf frameInfo) w.resultCache with
  | some cached => (.ok (some cached), w)
  | none =>
    if isNextjsRscUrl frameInfo.url then
      match rscFastPath env w frameInfo (cacheKeyOf frameInfo) debug with
      | (r, w1) => (.ok r, w1)
    else
      standardPath env w frameInfo (cacheKeyOf frameInfo)

/-- The body of `resolveLocation` before its top-level try/catch: parse the
frame, then run the cached dispatch. An `error` result models the promise
rejecting. -/
def resolveLocationE (env : Env) (w : World) (stackLine : String) (debug : Bool) :
    Except String (Option ResolvedSourceInfo) × World :=
  match extractStackFrameInfo stackLine with
  | none => (.ok none, w)
  | some frameInfo => resolveLocationCore env w frameInfo debug

/-- Resolves a stack trace line to an original source location: the whole
body runs inside a try/catch that converts every thrown error to `null`. -/
def resolveLocation (env : Env) (w : World) (stackLine : String) (debug : Bool) :
    Option ResolvedSourceInfo × World :=
  match resolveLocationE env w stackLine debug with
  | (.ok r, w1) => (r, w1)
  | (.error _, w1) => (none, w1)

/-- Clears all caches, including the dev-server availability flag. -/
def clearCaches (w : World) : World :=
  { w with resultCache := [], sourceMapCache := [], nextDevServerAvailable := none }

/-! ## General helper lemmas -/

theorem hasLead_iff {p l : List Char} : hasLead l p = true ↔ ∃ t, l = p ++ t := by
  induction p generalizing l with
  | nil => simp [hasLead]
  | cons d ds ih =>
    cases l with
    | nil =>
      simp only [hasLead, List.cons_append]
      constructor
      · intro h; exact absurd h (by simp)
      · rintro ⟨t, h⟩; exact absurd h (by simp)
    | cons c cs =>
      simp only [hasLead, Bool.and_eq_true, beq_iff_eq, ih, List.cons_append]
      constructor
      · rintro ⟨rfl, t, rfl⟩; exact ⟨t, rfl⟩
      · rintro ⟨t, h⟩
        obtain ⟨rfl, rfl⟩ : c = d ∧ cs = ds ++ t := by
          have h1 := congrArg List.head? h
          have h2 := congrArg List.tail h
          simp at h1 h2
          exact ⟨h1, h2⟩
        exact ⟨rfl, t, rfl⟩

theorem strStartsWith_iff {s p : String} : strStartsWith s p = true ↔ ∃ t, s.data = p.data ++ t :=
  hasLead_iff

theorem strStartsWith_append (p t : String) : strStartsWith (p ++ t) p = true := by
  rw [strStartsWith_iff]
  exact ⟨t.data, String.data_append p t⟩

theorem mk_data (s : String) : String.mk s.data = s := rfl

/-- A key absent from an association list is not touched by the delete filter. -/
theorem filter_ne_of_lookup_none {V : Type} {k : String} {m : List (String × V)}
    (h : List.lookup k m = none) : m.filter (fun p => !(p.1 == k)) = m := by
  induction m with
  | nil => rfl
  | cons p t ih =>
    obtain ⟨a, b⟩ := p
    rw [List.lookup_cons] at h
    by_cases hk : k = a
    · simp [hk] at h
    · have hba : (k == a) = false := by simp [hk]
      rw [hba] at h
      have h' : List.lookup k t = none := h
      have hak : ¬(a = k) := fun e => hk e.symm
      simp [List.filter_cons, hak, ih h']

/-- Every key of an association list with a failed lookup differs from the key. -/
theorem key_ne_of_lookup_none {V : Type} {k : String} {m : List (String × V)}
    (h : List.lookup k m = none) : ∀ p ∈ m, ¬(p.1 = k) := by
  induction m with
  | nil => simp
  | cons p t ih =>
    obtain ⟨a, b⟩ := p
    rw [List.lookup_cons] at h
    by_cases hk : k = a
    · simp [hk] at h
    · have hba : (k == a) = false := by simp [hk]
      rw [hba] at h
      have h' : List.lookup k t = none := h
      intro q hq
      rcases List.mem_cons.mp hq with rfl | hq'
      · exact fun e => hk e.symm
      · exact ih h' q hq'

/-- With unique keys, deleting a present key removes exactly one entry. -/
theorem length_filter_of_lookup_some {V : Type} {k : String} {m : List (String × V)} {v' : V}
    (hnd : (m.map Prod.fst).Nodup) (h : List.lookup k m = some v') :
    (m.filter (fun p => !(p.1 == k))).length + 1 = m.length := by
  induction m with
  | nil => simp [List.lookup] at h
  | cons p t ih =>
    obtain ⟨a, b⟩ := p
    simp only [List.map_cons, List.nodup_cons] at hnd
    rw [List.lookup_cons] at h
    by_cases hk : k = a
    · subst hk
      have hfi : t.filter (fun p => !(p.1 == k)) = t := by
        rw [List.filter_eq_self]
        intro q hq
        have hmem : q.1 ∈ t.map Prod.fst := List.mem_map_of_mem Prod.fst hq
        simp only [Bool.not_eq_true', beq_eq_false_iff_ne, ne_eq]
        intro hqk
        exact hnd.1 (hqk ▸ hmem)
      simp [List.filter_cons, hfi]
    · have hba : (k == a) = false := by simp [hk]
      rw [hba] at h
      have h' : List.lookup k t = some v' := h
      have hak : ¬(a = k) := fun e => hk e.symm
      have hfc : List.filter (fun p => !(p.1 == k)) ((a, b) :: t)
          = (a, b) :: List.filter (fun p => !(p.1 == k)) t := by
        simp [List.filter_cons, hak]
      rw [hfc]
      simp only [List.length_cons]
      have := ih hnd.2 h'
      omega

/-- Claim C5: for either bounded cache (result cache capacity 500,
source-map cache capacity 100) whose size is at most its capacity and
whose keys are unique (the JS `Map` invariant), `boundedSet` with a new
key that would exceed capacity evicts exactly the single oldest-inserted
entry and no other; with an existing key it does not grow the cache and
moves that key to the newest insertion position; and the resulting size
never exceeds the capacity. -/
theorem boundedSet_spec {V : Type} (m : List (String × V)) (k : String) (v : V) (maxSize : Nat)
    (hcap : maxSize = MAX_RESULT_CACHE_SIZE ∨ maxSize = MAX_SOURCE_MAP_CACHE_SIZE)
    (hnd : (m.map Prod.fst).Nodup)
    (hsz : m.length ≤ maxSize) :
    (boundedSet m k v maxSize).length ≤ maxSize
    ∧ (List.lookup k m = none → m.length = maxSize →
        boundedSet m k v maxSize = m.tail ++ [(k, v)])
    ∧ (List.lookup k m = none → m.length < maxSize →
        boundedSet m k v maxSize = m ++ [(k, v)])
    ∧ (∀ v', List.lookup k m = some v' →
        boundedSet m k v maxSize = m.filter (fun p => !(p.1 == k)) ++ [(k, v)]
        ∧ (boundedSet m k v maxSize).length = m.length) := by
  have hpos : 1 ≤ maxSize := by rcases hcap with rfl | rfl <;> decide
  -- the case of a fresh key at exactly full capacity
  have hfull : List.lookup k m = none → m.length = maxSize →
      boundedSet m k v maxSize = m.tail ++ [(k, v)] := by
    intro hnone hlen
    have hfilt : m.filter (fun p => !(p.1 == k)) = m := filter_ne_of_lookup_none hnone
    unfold boundedSet
    rw [hfilt]
    have hgt : maxSize < (m ++ [(k, v)]).length := by
      simp [List.length_append, hlen]
    rw [if_pos hgt]
    cases m with
    | nil => exfalso; simp only [List.length_nil] at hlen; omega
    | cons p t =>
      obtain ⟨a, b⟩ := p
      simp only [List.map_cons, List.nodup_cons] at hnd
      simp only [List.cons_append, List.filter_cons]
      have : (!(a == a)) = false := by simp
      rw [this]
      simp only [Bool.false_eq_true, if_false, List.tail_cons]
      rw [List.filter_append]
      have h1 : t.filter (fun q => !(q.1 == a)) = t := by
        rw [List.filter_eq_self]
        intro q hq
        have hmem : q.1 ∈ t.map Prod.fst := List.mem_map_of_mem Prod.fst hq
        simp only [Bool.not_eq_true', beq_eq_false_iff_ne, ne_eq]
        intro hqa
        exact hnd.1 (hqa ▸ hmem)
      have h2 : [(k, v)].filter (fun q => !(q.1 == a)) = [(k, v)] := by
        have hka : ¬(k = a) := by
          have := key_ne_of_lookup_none hnone (a, b) (List.mem_cons_self _ _)
          exact fun h => this h.symm
        simp [List.filter_cons, hka]
      rw [h1, h2]
  have hfresh : List.lookup k m = none → m.length < maxSize →
      boundedSet m k v maxSize = m ++ [(k, v)] := by
    intro hnone hlt
    have hfilt : m.filter (fun p => !(p.1 == k)) = m := filter_ne_of_lookup_none hnone
    unfold boundedSet
    rw [hfilt]
    have hle : ¬ maxSize < (m ++ [(k, v)]).length := by
      simp only [List.length_append, List.length_singleton]
      omega
    rw [if_neg hle]
  have hexist : ∀ v', List.lookup k m = some v' →
      boundedSet m k v maxSize = m.filter (fun p => !(p.1 == k)) ++ [(k, v)]
      ∧ (boundedSet m k v maxSize).length = m.length := by
    intro v' hsome
    have hlen := length_filter_of_lookup_some hnd hsome
    unfold boundedSet
    have hle : ¬ maxSize < ((m.filter (fun p => !(p.1 == k))) ++ [(k, v)]).length := by
      simp only [List.length_append, List.length_singleton]
      omega
    rw [if_neg hle]
    refine ⟨rfl, ?_⟩
    simp only [List.length_append, List.length_singleton]
    omega
  refine ⟨?_, hfull, hfresh, hexist⟩
  cases hlk : List.lookup k m with
  | none =>
    rcases Nat.lt_or_ge m.length maxSize with hlt | hge
    · rw [hfresh hlk hlt]
      simp only [List.length_append, List.length_singleton]
      omega
    · have hlen : m.length = maxSize := Nat.le_antisymm hsz hge
      rw [hfull hlk hlen]
      simp only [List.length_append, List.length_singleton, List.length_tail]
      omega
  | some v' => exact ((hexist v' hlk).2) ▸ hsz

/-- Witness for C5: a concrete two-entry source-map cache accepts a fresh
key below capacity by plain append, and re-setting an existing key keeps
the size and moves the key to the newest position. -/
theorem boundedSet_spec_witness :
    ((([("a", 1), ("b", 2)] : List (String × Nat)).map Prod.fst).Nodup
      ∧ ([("a", 1), ("b", 2)] : List (String × Nat)).length ≤ MAX_SOURCE_MAP_CACHE_SIZE)
    ∧ boundedSet ([("a", 1), ("b", 2)] : List (String × Nat)) "c" 3 MAX_SOURCE_MAP_CACHE_SIZE
        = [("a", 1), ("b", 2)] ++ [("c", 3)]
    ∧ (boundedSet ([("a", 1), ("b", 2)] : List (String × Nat)) "b" 9 MAX_SOURCE_MAP_CACHE_SIZE
        ).length = 2 := by
  refine ⟨⟨by decide, by decide⟩, ?_, ?_⟩
  · exact (boundedSet_spec [("a", 1), ("b", 2)] "c" 3 MAX_SOURCE_MAP_CACHE_SIZE
      (Or.inr rfl) (by decide) (by decide)).2.2.1 (by decide) (by decide)
  · exact ((boundedSet_spec [("a", 1), ("b", 2)] "b" 9 MAX_SOURCE_MAP_CACHE_SIZE
      (Or.inr rfl) (by decide) (by decide)).2.2.2 2 (by decide)).2

theorem strDrop_append (p t : String) : strDrop (p ++ t) p.length = t := by
  unfold strDrop
  rw [String.data_append]
  rw [show p.length = p.data.length from rfl, List.drop_left]

theorem startsWith_slash_not_file {s : String} (h : strStartsWith s "/" = true) :
    strStartsWith s "file://" = false := by
  obtain ⟨t, ht⟩ := strStartsWith_iff.mp h
  unfold strStartsWith
  rw [ht]
  rfl

/-- A convenient fully concrete environment for witnesses. -/
def trivialEnv : Env := { origin := "http://site", fetch := fun _ => none }

/-- A concrete environment answering 200 with a fixed body to every request. -/
def okEnv : Env :=
  { origin := "http://site",
    fetch := fun _ => some { status := 200, statusText := "OK", body := "thebody" } }

/-- A concrete environment answering 404 to every request. -/
def notFoundEnv : Env :=
  { origin := "http://site",
    fetch := fun _ => some { status := 404, statusText := "Not Found", body := "" } }

/-- Claim C8: a `file://`-scheme `rawSource` whose remainder is an absolute
path resolves to the remainder with the scheme stripped, for every
environment — in particular whether or not a source root is configured,
since the result does not depend on the environment at all. -/
theorem resolveSourcePath_fileScheme (env : Env) (rest : String)
    (smRoot : Option String) (sfu : String)
    (h : strStartsWith rest "/" = true) :
    resolveSourcePath env ("file://" ++ rest) smRoot sfu = rest := by
  have h1 : strStartsWith ("file://" ++ rest) "file://" = true := strStartsWith_append _ _
  have h2 : strDrop ("file://" ++ rest) 7 = rest := strDrop_append "file://" rest
  unfold resolveSourcePath
  rw [h2, h1, h]
  rfl

/-- Witness for C8: the spec's own example `file:///a/b/Foo.tsx` resolves
to `/a/b/Foo.tsx`, both without a root and with a configured root. -/
theorem resolveSourcePath_fileScheme_witness :
    strStartsWith "/a/b/Foo.tsx" "/" = true
    ∧ resolveSourcePath trivialEnv ("file://" ++ "/a/b/Foo.tsx") none "anyUrl" = "/a/b/Foo.tsx"
    ∧ resolveSourcePath { trivialEnv with sourceRootCfg := configureSourceRoot (some "/project") }
        ("file://" ++ "/a/b/Foo.tsx") none "anyUrl" = "/a/b/Foo.tsx" :=
  ⟨by decide,
   resolveSourcePath_fileScheme trivialEnv "/a/b/Foo.tsx" none "anyUrl" (by decide),
   resolveSourcePath_fileScheme
     { trivialEnv with sourceRootCfg := configureSourceRoot (some "/project") }
     "/a/b/Foo.tsx" none "anyUrl" (by decide)⟩

/-- Claim C1 counterexample: with the source root configured to
`/project`, an absolute raw source containing the `/src/` marker is
returned unchanged, not root-prefixed as the claim states. -/
theorem resolveSourcePath_rootMarker_counterexample :
    resolveSourcePath { trivialEnv with sourceRootCfg := configureSourceRoot (some "/project") }
      "/src/Foo.tsx" none "http://h/x.js" = "/src/Foo.tsx"
    ∧ resolveSourcePath { trivialEnv with sourceRootCfg := configureSourceRoot (some "/project") }
        "/src/Foo.tsx" none "http://h/x.js" ≠ "/project" ++ "/src/Foo.tsx" := by
  constructor
  · decide
  · decide

/-- Claim C1 (amended): an absolute `rawSource` (leading `/`, not `//`)
containing a `/src/` or `/node_modules/` marker is returned unchanged by
`resolveSourcePath` whether or not a source root is configured; the
configured root is prefixed exactly when both markers are absent (and the
raw source is returned unchanged when no root is configured). -/
theorem resolveSourcePath_absolute (env : Env) (rawSource : String)
    (smRoot : Option String) (sfu : String)
    (h1 : strStartsWith rawSource "/" = true)
    (h2 : strStartsWith rawSource "//" = false) :
    ((strContains rawSource "/src/" || strContains rawSource "/node_modules/") = true →
      resolveSourcePath env rawSource smRoot sfu = rawSource)
    ∧ ((strContains rawSource "/src/" || strContains rawSource "/node_modules/") = false →
        (getSourceRoot env = none → resolveSourcePath env rawSource smRoot sfu = rawSource)
        ∧ (∀ r, getSourceRoot env = some r → ¬(r = "") →
            resolveSourcePath env rawSource smRoot sfu = r ++ rawSource)) := by
  have hf : strStartsWith rawSource "file://" = false := startsWith_slash_not_file h1
  unfold resolveSourcePath
  rw [hf]
  simp only [Bool.false_and, Bool.false_eq_true, if_false, h1, h2, Bool.not_false,
    Bool.and_self, if_true]
  constructor
  · intro hm
    rw [hm]
    simp
  · intro hm
    rw [hm]
    simp only [Bool.false_eq_true, if_false]
    constructor
    · intro hroot; rw [hroot]
    · intro r hroot hr
      rw [hroot]
      simp [hr]

/-- Witness for C1 (amended): concrete instances of all three branches. -/
theorem resolveSourcePath_absolute_witness :
    resolveSourcePath { trivialEnv with sourceRootCfg := configureSourceRoot (some "/project") }
      "/src/Foo.tsx" none "http://h/x.js" = "/src/Foo.tsx"
    ∧ resolveSourcePath trivialEnv "/Foo.tsx" none "http://h/x.js" = "/Foo.tsx"
    ∧ resolveSourcePath { trivialEnv with sourceRootCfg := configureSourceRoot (some "/project") }
        "/Foo.tsx" none "http://h/x.js" = "/project" ++ "/Foo.tsx" :=
  ⟨(resolveSourcePath_absolute
      { trivialEnv with sourceRootCfg := configureSourceRoot (some "/project") }
      "/src/Foo.tsx" none "http://h/x.js" (by decide) (by decide)).1 (by decide),
   ((resolveSourcePath_absolute trivialEnv "/Foo.tsx" none "http://h/x.js"
      (by decide) (by decide)).2 (by decide)).1 (by decide),
   ((resolveSourcePath_absolute
      { trivialEnv with sourceRootCfg := configureSourceRoot (some "/project") }
      "/Foo.tsx" none "http://h/x.js" (by decide) (by decide)).2 (by decide)).2
     "/project" (by decide) (by decide)⟩

/-! ## Scheme classification lemmas (C6, C10) -/

/-- A syntactically valid URL scheme name: a letter followed by letters,
digits, `+`, `.` or `-` (the shape recognised by the source's regex). -/
def isSchemeName (scheme : String) : Bool :=
  match scheme.data with
  | [] => false
  | c :: rest => c.isAlpha && rest.all schemeChar

theorem dropWhile_append_of_all {α : Type} (p : α → Bool) {l₁ : List α} (l₂ : List α)
    (h : ∀ a ∈ l₁, p a = true) : (l₁ ++ l₂).dropWhile p = l₂.dropWhile p := by
  induction l₁ with
  | nil => rfl
  | cons a t ih =>
    have ha : p a = true := h a (List.mem_cons_self _ _)
    simp only [List.cons_append, List.dropWhile_cons, ha, if_true]
    exact ih (fun x hx => h x (List.mem_cons_of_mem _ hx))

theorem scheme_data_shape {scheme : String} (h : isSchemeName scheme = true) :
    ∃ c cs, scheme.data = c :: cs ∧ c.isAlpha = true ∧ ∀ x ∈ cs, schemeChar x = true := by
  unfold isSchemeName at h
  cases hd : scheme.data with
  | nil => rw [hd] at h; exact absurd h (by decide)
  | cons c cs =>
    rw [hd] at h
    simp only [Bool.and_eq_true, List.all_eq_true] at h
    exact ⟨c, cs, rfl, h.1, h.2⟩

theorem alpha_head_not_slash {s : String} {c : Char} {cs : List Char}
    (hd : s.data = c :: cs) (hc : c.isAlpha = true) : strStartsWith s "/" = false := by
  have hne : (c == '/') = false := by
    cases hcd : c == '/' with
    | true =>
      exfalso
      have : c = '/' := by simpa using hcd
      rw [this] at hc
      exact absurd hc (by decide)
    | false => rfl
  unfold strStartsWith
  rw [hd]
  show (c == '/' && hasLead cs []) = false
  rw [hne, Bool.false_and]

theorem sep_data_shape (scheme rest : String) {c : Char} {cs : List Char}
    (hd : scheme.data = c :: cs) :
    (scheme ++ "://" ++ rest).data = c :: (cs ++ (':' :: '/' :: '/' :: rest.data)) := by
  rw [String.data_append, String.data_append, hd]
  have hlit : "://".data = [':', '/', '/'] := rfl
  rw [hlit]
  simp

theorem colon_data_shape (scheme rest : String) {c : Char} {cs : List Char}
    (hd : scheme.data = c :: cs) :
    (scheme ++ ":" ++ rest).data = c :: (cs ++ (':' :: rest.data)) := by
  rw [String.data_append, String.data_append, hd]
  have hlit : ":".data = [':'] := rfl
  rw [hlit]
  simp

theorem schemeSlashSlashTest_sep {scheme rest : String} (h : isSchemeName scheme = true) :
    schemeSlashSlashTest (scheme ++ "://" ++ rest) = true := by
  obtain ⟨c, cs, hd, hc, hcs⟩ := scheme_data_shape h
  unfold schemeSlashSlashTest
  rw [sep_data_shape scheme rest hd]
  show (c.isAlpha && hasLead ((cs ++ (':' :: '/' :: '/' :: rest.data)).dropWhile schemeChar)
    [':', '/', '/']) = true
  have hdrop : (cs ++ (':' :: '/' :: '/' :: rest.data)).dropWhile schemeChar
      = (':' :: '/' :: '/' :: rest.data).dropWhile schemeChar :=
    dropWhile_append_of_all schemeChar _ hcs
  rw [hdrop]
  have hred : (':' :: '/' :: '/' :: rest.data).dropWhile schemeChar
      = ':' :: '/' ::  '/' :: rest.data := by
    rw [List.dropWhile_cons]
    simp [schemeChar]
  rw [hred, hc]
  simp [hasLead]

theorem schemeSlashSlashTest_noSep {scheme rest : String} (h : isSchemeName scheme = true)
    (h2 : hasLead rest.data ['/', '/'] = false) :
    schemeSlashSlashTest (scheme ++ ":" ++ rest) = false := by
  obtain ⟨c, cs, hd, hc, hcs⟩ := scheme_data_shape h
  unfold schemeSlashSlashTest
  rw [colon_data_shape scheme rest hd]
  show (c.isAlpha && hasLead ((cs ++ (':' :: rest.data)).dropWhile schemeChar)
    [':', '/', '/']) = false
  have hdrop : (cs ++ (':' :: rest.data)).dropWhile schemeChar
      = (':' :: rest.data).dropWhile schemeChar :=
    dropWhile_append_of_all schemeChar _ hcs
  rw [hdrop]
  have hcolon : (':' :: rest.data).dropWhile schemeChar = ':' :: rest.data := by
    rw [List.dropWhile_cons]
    simp [schemeChar]
  rw [hcolon]
  have hlead : hasLead (':' :: rest.data) [':', '/', '/'] = false := by
    show ((':' == ':') && hasLead rest.data ['/', '/']) = false
    rw [h2]
    simp
  rw [hlead, Bool.and_false]

theorem hasNonFetchableScheme_of_scheme {scheme rest : String}
    (h1 : isSchemeName scheme = true)
    (hh : strStartsWith (scheme ++ "://" ++ rest) "http://" = false)
    (hhs : strStartsWith (scheme ++ "://" ++ rest) "https://" = false) :
    hasNonFetchableScheme (scheme ++ "://" ++ rest) = true := by
  obtain ⟨c, cs, hd, hc, _⟩ := scheme_data_shape h1
  have hslash : strStartsWith (scheme ++ "://" ++ rest) "/" = false :=
    alpha_head_not_slash (sep_data_shape scheme rest hd) hc
  unfold hasNonFetchableScheme
  rw [hslash, hh, hhs]
  simp only [Bool.or_self, Bool.false_or, Bool.false_eq_true, if_false]
  exact schemeSlashSlashTest_sep h1

/-- Claim C6: `fetchSourceFile` fails fast, with no network request, on a
URL with a non-http(s) `scheme://` shape (such URLs cannot begin with a
slash); for a fetchable URL for which the environment delivers an HTTP
response, it throws exactly when the response is not successful, with the
status propagated into the error, and otherwise returns the content
together with the effective fully-qualified URL, root-relative URLs being
resolved against the current origin. -/
theorem fetchSourceFile_spec (env : Env) (w : World) :
    (∀ scheme rest, isSchemeName scheme = true →
      strStartsWith (scheme ++ "://" ++ rest) "http://" = false →
      strStartsWith (scheme ++ "://" ++ rest) "https://" = false →
      fetchSourceFile env w (scheme ++ "://" ++ rest)
        = (.error ("Non-fetchable URL scheme: " ++ (scheme ++ "://" ++ rest)), w))
    ∧ (∀ url resp, hasNonFetchableScheme url = false →
        env.fetch (Request.get (if strStartsWith url "http" then url else env.origin ++ url))
          = some resp →
        (resp.ok = true →
          fetchSourceFile env w url
            = (.ok (resp.body, if strStartsWith url "http" then url else env.origin ++ url),
               recordRequest w (Request.get
                 (if strStartsWith url "http" then url else env.origin ++ url))))
        ∧ (resp.ok = false →
          fetchSourceFile env w url
            = (.error ("Failed to fetch source file: " ++ toString resp.status ++ " "
                ++ resp.statusText),
               recordRequest w (Request.get
                 (if strStartsWith url "http" then url else env.origin ++ url))))) := by
  constructor
  · intro scheme rest h1 hh hhs
    unfold fetchSourceFile
    rw [hasNonFetchableScheme_of_scheme h1 hh hhs]
    simp
  · intro url resp hnf hresp
    unfold fetchSourceFile doFetch
    rw [hnf]
    simp only [Bool.false_eq_true, if_false, hresp]
    constructor
    · intro hok; rw [hok]; simp
    · intro hok; rw [hok]
      simp

/-- Witness for C6: a concrete extension-scheme URL fails fast leaving the
world untouched, and a concrete 200 and 404 response round-trip through
the success and failure branches. -/
theorem fetchSourceFile_spec_witness :
    fetchSourceFile trivialEnv { } ("chrome-extension" ++ "://" ++ "x/y.js")
      = (.error ("Non-fetchable URL scheme: " ++ ("chrome-extension" ++ "://" ++ "x/y.js")), { })
    ∧ fetchSourceFile okEnv { } "/a.js"
      = (.ok ("thebody", "http://site" ++ "/a.js"),
         recordRequest { } (Request.get ("http://site" ++ "/a.js")))
    ∧ fetchSourceFile notFoundEnv { } "/a.js"
      = (.error ("Failed to fetch source file: " ++ toString 404 ++ " " ++ "Not Found"),
         recordRequest { } (Request.get ("http://site" ++ "/a.js"))) := by
  refine ⟨?_, ?_, ?_⟩
  · exact (fetchSourceFile_spec trivialEnv { }).1 "chrome-extension" "x/y.js"
      (by decide) (by decide) (by decide)
  · have h := ((fetchSourceFile_spec okEnv { }).2 "/a.js"
      { status := 200, statusText := "OK", body := "thebody" } (by decide) (by decide)).1
      (by decide)
    simpa using h
  · have h := ((fetchSourceFile_spec notFoundEnv { }).2 "/a.js"
      { status := 404, statusText := "Not Found", body := "" } (by decide) (by decide)).2
      (by decide)
    simpa using h

/-- Claim C10 counterexample: `http:foo` has a scheme not followed by `//`
and is indeed not rejected as non-fetchable, but the network fetch it
triggers targets the URL itself, not the URL appended to the current
origin, because the URL starts with `http`. -/
theorem fetchSourceFile_origin_counterexample :
    hasNonFetchableScheme "http:foo" = false
    ∧ (fetchSourceFile trivialEnv { } "http:foo").2.requests = [Request.get "http:foo"]
    ∧ Request.get "http:foo" ≠ Request.get (trivialEnv.origin ++ "http:foo") := by
  refine ⟨by decide, by decide, by decide⟩

/-- Claim C10 (amended): for every URL of shape `scheme:rest` whose scheme
is not followed by `//`, `hasNonFetchableScheme` returns false, so
`fetchSourceFile` does not fail fast and instead issues a network request
— for the URL itself when the URL begins with `http`, otherwise for the
URL appended to the current origin. -/
theorem fetchSourceFile_noSlashSlash (env : Env) (w : World) (scheme rest : String)
    (h1 : isSchemeName scheme = true)
    (h2 : hasLead rest.data ['/', '/'] = false) :
    hasNonFetchableScheme (scheme ++ ":" ++ rest) = false
    ∧ (fetchSourceFile env w (scheme ++ ":" ++ rest)).2.requests
        = w.requests ++ [Request.get (if strStartsWith (scheme ++ ":" ++ rest) "http"
            then scheme ++ ":" ++ rest else env.origin ++ (scheme ++ ":" ++ rest))] := by
  have hfalse : hasNonFetchableScheme (scheme ++ ":" ++ rest) = false := by
    unfold hasNonFetchableScheme
    by_cases hg : (strStartsWith (scheme ++ ":" ++ rest) "/"
        || strStartsWith (scheme ++ ":" ++ rest) "http://"
        || strStartsWith (scheme ++ ":" ++ rest) "https://") = true
    · rw [if_pos hg]
    · rw [if_neg hg]
      exact schemeSlashSlashTest_noSep h1 h2
  refine ⟨hfalse, ?_⟩
  unfold fetchSourceFile doFetch
  rw [hfalse]
  simp only [Bool.false_eq_true, if_false]
  cases henv : env.fetch (Request.get (if strStartsWith (scheme ++ ":" ++ rest) "http"
      then scheme ++ ":" ++ rest else env.origin ++ (scheme ++ ":" ++ rest))) with
  | none => simp [recordRequest]
  | some resp =>
    cases hok : resp.ok with
    | true => simp [hok, recordRequest]
    | false => simp [hok, recordRequest]

/-- Witness for C10 (amended): the data-URL example is not rejected and is
fetched appended to the origin. -/
theorem fetchSourceFile_noSlashSlash_witness :
    hasNonFetchableScheme ("data" ++ ":" ++ "application/json;base64,AAAA") = false
    ∧ (fetchSourceFile trivialEnv { } ("data" ++ ":" ++ "application/json;base64,AAAA")).2.requests
        = [Request.get ("http://site" ++ ("data" ++ ":" ++ "application/json;base64,AAAA"))] := by
  have h := fetchSourceFile_noSlashSlash trivialEnv { } "data" "application/json;base64,AAAA"
    (by decide) (by decide)
  refine ⟨h.1, ?_⟩
  rw [h.2]
  decide

/-- Claim C2: `resolveLocation` never rejects. Whenever its body throws —
modelled as an `error` result of `resolveLocationE`, covering every
internal failure that is not already caught further down (non-fetchable
scheme, HTTP failure on the source file, `atob`/`decodeURIComponent`/URL
errors) — the top-level catch resolves to `none` with the state reached so
far; an unparseable stack line likewise yields `none` with the world
untouched. The return type is a plain option: no other outcome exists. -/
theorem resolveLocation_never_throws (env : Env) (w : World) (stackLine : String) (debug : Bool) :
    (∀ e w1, resolveLocationE env w stackLine debug = (.error e, w1) →
      resolveLocation env w stackLine debug = (none, w1))
    ∧ (extractStackFrameInfo stackLine = none →
      resolveLocation env w stackLine debug = (none, w)) := by
  constructor
  · intro e w1 h
    unfold resolveLocation
    rw [h]
  · intro h
    unfold resolveLocation resolveLocationE
    rw [h]

/-- Witness for C2: a frame with an extension-style scheme makes the body
throw and the catch resolves it to `none`; an unparseable line resolves to
`none` directly. -/
theorem resolveLocation_never_throws_witness :
    resolveLocationE trivialEnv { } "at fn (foo-scheme://x/y.js:1:2)" false
      = (.error ("Non-fetchable URL scheme: foo-scheme://x/y.js"), { })
    ∧ resolveLocation trivialEnv { } "at fn (foo-scheme://x/y.js:1:2)" false = (none, { })
    ∧ extractStackFrameInfo "no frame here" = none
    ∧ resolveLocation trivialEnv { } "no frame here" false = (none, { }) := by
  have h1 : resolveLocationE trivialEnv { } "at fn (foo-scheme://x/y.js:1:2)" false
      = (.error ("Non-fetchable URL scheme: foo-scheme://x/y.js"), { }) := by rfl
  have h3 : extractStackFrameInfo "no frame here" = none := by decide
  exact ⟨h1,
    (resolveLocation_never_throws trivialEnv { } "at fn (foo-scheme://x/y.js:1:2)" false).1
      _ _ h1,
    h3,
    (resolveLocation_never_throws trivialEnv { } "no frame here" false).2 h3⟩

/-- Claim C9 counterexample: the parser accepts a line number of zero, so
a non-null `StackFrameInfo` with `line = 0 < 1` exists. -/
theorem extractStackFrameInfo_line_counterexample :
    extractStackFrameInfo "at fn (u:0:5)"
      = some { functionName := some "fn", url := "u", line := 0, column := 5 }
    ∧ ¬((1 : Int) ≤ 0) := ⟨by decide, by decide⟩

/-- Claim C9 (amended): every non-null `StackFrameInfo` produced by
`extractStackFrameInfo` satisfies `line ≥ 0` and `column ≥ 0` (the digit
captures parse to non-negative integers); `line ≥ 1` does not hold in
general, as a captured `0` parses to zero. -/
theorem extractStackFrameInfo_nonneg (s : String) (info : StackFrameInfo)
    (h : extractStackFrameInfo s = some info) : 0 ≤ info.line ∧ 0 ≤ info.column := by
  unfold extractStackFrameInfo at h
  split at h
  · simp only [Option.some.injEq] at h
    subst h
    exact ⟨Int.ofNat_nonneg _, Int.ofNat_nonneg _⟩
  · split at h
    · simp only [Option.some.injEq] at h
      subst h
      exact ⟨Int.ofNat_nonneg _, Int.ofNat_nonneg _⟩
    · split at h
      · simp only [Option.some.injEq] at h
        subst h
        exact ⟨Int.ofNat_nonneg _, Int.ofNat_nonneg _⟩
      · exact absurd h (by simp)

/-- Witness for C9 (amended): the zero-line frame satisfies the amended
bounds. -/
theorem extractStackFrameInfo_nonneg_witness :
    extractStackFrameInfo "at fn (u:0:5)"
      = some { functionName := some "fn", url := "u", line := 0, column := 5 }
    ∧ (0 : Int) ≤ 0 ∧ (0 : Int) ≤ 5 := by
  have h : extractStackFrameInfo "at fn (u:0:5)"
      = some { functionName := some "fn", url := "u", line := 0, column := 5 } := by decide
  have h2 := extractStackFrameInfo_nonneg "at fn (u:0:5)"
    { functionName := some "fn", url := "u", line := 0, column := 5 } h
  exact ⟨h, h2.1, h2.2⟩

/-! ## L1-cache idempotence (C3) -/

theorem resolveLocationE_noFrame {env : Env} {w : World} {s : String} {d : Bool}
    (h : extractStackFrameInfo s = none) : resolveLocationE env w s d = (.ok none, w) := by
  unfold resolveLocationE
  rw [h]

theorem resolveLocationE_frame {env : Env} {w : World} {s : String} {d : Bool}
    {fi : StackFrameInfo} (h : extractStackFrameInfo s = some fi) :
    resolveLocationE env w s d = resolveLocationCore env w fi d := by
  unfold resolveLocationE
  rw [h]

theorem resolveLocationCore_hit {env : Env} {w : World} {fi : StackFrameInfo} {d : Bool}
    {v : ResolvedSourceInfo} (hl : List.lookup (cacheKeyOf fi) w.resultCache = some v) :
    resolveLocationCore env w fi d = (.ok (some v), w) := by
  unfold resolveLocationCore
  rw [hl]

theorem resolveLocationCore_rsc {env : Env} {w : World} {fi : StackFrameInfo} {d : Bool}
    (hl : List.lookup (cacheKeyOf fi) w.resultCache = none)
    (hr : isNextjsRscUrl fi.url = true) :
    resolveLocationCore env w fi d
      = (match rscFastPath env w fi (cacheKeyOf fi) d with
         | (r, w1) => (.ok r, w1)) := by
  unfold resolveLocationCore
  rw [hl]
  rw [if_pos hr]

theorem resolveLocationCore_standard {env : Env} {w : World} {fi : StackFrameInfo} {d : Bool}
    (hl : List.lookup (cacheKeyOf fi) w.resultCache = none)
    (hr : ¬(isNextjsRscUrl fi.url = true)) :
    resolveLocationCore env w fi d = standardPath env w fi (cacheKeyOf fi) := by
  unfold resolveLocationCore
  rw [hl]
  rw [if_neg hr]

theorem lookup_append_last {V : Type} {l : List (String × V)} {k : String} {v : V}
    (h : ∀ p ∈ l, (p.1 == k) = false) : List.lookup k (l ++ [(k, v)]) = some v := by
  induction l with
  | nil => simp [List.lookup]
  | cons a t ih =>
    obtain ⟨a1, a2⟩ := a
    have ha := h (a1, a2) (List.mem_cons_self _ _)
    have hne : ¬(a1 = k) := by simpa using ha
    have hka : (k == a1) = false := by
      simp only [beq_eq_false_iff_ne, ne_eq]
      exact fun e => hne e.symm
    rw [List.cons_append, List.lookup_cons, hka]
    exact ih (fun p hp => h p (List.mem_cons_of_mem _ hp))

/-- After a `boundedSet` write, the written key is always retrievable (the
eviction can never remove the just-written newest entry when the capacity
is at least one). -/
theorem lookup_boundedSet_self {V : Type} (m : List (String × V)) (k : String) (v : V)
    {maxSize : Nat} (hpos : 1 ≤ maxSize) :
    List.lookup k (boundedSet m k v maxSize) = some v := by
  unfold boundedSet
  have hmem : ∀ p ∈ m.filter (fun p => !(p.1 == k)), (p.1 == k) = false := by
    intro p hp
    have := List.of_mem_filter hp
    simpa using this
  by_cases hlen : maxSize < (m.filter (fun p => !(p.1 == k)) ++ [(k, v)]).length
  · rw [if_pos hlen]
    rcases hF : m.filter (fun p => !(p.1 == k)) with _ | ⟨p, t⟩
    · exfalso
      rw [hF] at hlen
      simp at hlen
      omega
    · rw [hF] at hlen ⊢
      show List.lookup k ((p :: (t ++ [(k, v)])).filter (fun q => !(q.1 == p.1))) = some v
      simp only [List.filter_cons]
      have hpp : (!(p.1 == p.1)) = false := by simp
      rw [hpp]
      simp only [Bool.false_eq_true, if_false]
      rw [List.filter_append]
      have hkp : (p.1 == k) = false := hmem p (by rw [hF]; exact List.mem_cons_self _ _)
      have hkv : [(k, v)].filter (fun q => !(q.1 == p.1)) = [(k, v)] := by
        have hne : ¬(k = p.1) := by
          have : ¬(p.1 = k) := by simpa using hkp
          exact fun e => this e.symm
        simp [List.filter_cons, hne]
      rw [hkv]
      refine lookup_append_last ?_
      intro q hq
      have hqt : q ∈ t := List.mem_of_mem_filter hq
      exact hmem q (by rw [hF]; exact List.mem_cons_of_mem _ hqt)
  · rw [if_neg hlen]
    exact lookup_append_last hmem

theorem rscStrategy2_lookup {env : Env} {w : World} {fi : StackFrameInfo} {ck fp : String}
    {d : Bool} {v : ResolvedSourceInfo} {w1 : World}
    (h : rscStrategy2 env w fi ck fp d = (some v, w1)) :
    List.lookup ck w1.resultCache = some v := by
  unfold rscStrategy2 at h
  split at h
  · simp at h
  · split at h
    · simp at h
    · simp only [Prod.mk.injEq, Option.some.injEq] at h
      obtain ⟨rfl, rfl⟩ := h
      exact lookup_boundedSet_self _ _ _ (by decide)

theorem rscFastPath_lookup {env : Env} {w : World} {fi : StackFrameInfo} {ck : String}
    {d : Bool} {v : ResolvedSourceInfo} {w1 : World}
    (h : rscFastPath env w fi ck d = (some v, w1)) :
    List.lookup ck w1.resultCache = some v := by
  unfold rscFastPath at h
  split at h
  · -- Strategy 1 succeeded
    simp only [Prod.mk.injEq, Option.some.injEq] at h
    obtain ⟨rfl, rfl⟩ := h
    exact lookup_boundedSet_self _ _ _ (by decide)
  · -- Strategy 1 returned none
    split at h
    · simp at h
    · exact rscStrategy2_lookup h

theorem standardFinish_lookup {env : Env} {w : World} {fi : StackFrameInfo} {ck : String}
    {smd : CachedSourceMapData} {eu : String} {v : ResolvedSourceInfo} {w1 : World}
    (h : standardFinish env w fi ck smd eu = (some v, w1)) :
    List.lookup ck w1.resultCache = some v := by
  unfold standardFinish at h
  split at h
  · simp at h
  · simp only [Prod.mk.injEq, Option.some.injEq] at h
    obtain ⟨rfl, rfl⟩ := h
    exact lookup_boundedSet_self _ _ _ (by decide)

theorem ok_pair_match {A : Option ResolvedSourceInfo × World} {v : ResolvedSourceInfo}
    {w1 : World}
    (h : (match A with
          | (r, w5) => ((Except.ok r : Except String (Option ResolvedSourceInfo)), w5))
        = (.ok (some v), w1)) :
    A = (some v, w1) := by
  obtain ⟨r, w5⟩ := A
  simpa using h

theorem standardPath_lookup {env : Env} {w : World} {fi : StackFrameInfo} {ck : String}
    {v : ResolvedSourceInfo} {w1 : World}
    (h : standardPath env w fi ck = (.ok (some v), w1)) :
    List.lookup ck w1.resultCache = some v := by
  unfold standardPath at h
  split at h
  · -- L2 hit
    exact standardFinish_lookup (ok_pair_match h)
  · -- L2 miss
    split at h
    · simp at h
    · split at h
      · simp at h
      · simp at h
      · exact standardFinish_lookup (ok_pair_match h)

/-- Whenever `resolveLocation` returns a non-null result, that result sits
in the L1 cache of the returned world under the frame's cache key. -/
theorem resolveLocation_some_cached {env : Env} {w : World} {s : String} {d : Bool}
    {v : ResolvedSourceInfo} {w1 : World}
    (h : resolveLocation env w s d = (some v, w1)) :
    ∃ fi, extractStackFrameInfo s = some fi
      ∧ List.lookup (cacheKeyOf fi) w1.resultCache = some v := by
  unfold resolveLocation at h
  revert h
  cases he : resolveLocationE env w s d with
  | mk r w' =>
    intro h
    cases r with
    | error e => simp at h
    | ok r' =>
      simp only [Prod.mk.injEq] at h
      obtain ⟨rfl, rfl⟩ := h
      cases hf : extractStackFrameInfo s with
      | none =>
        rw [resolveLocationE_noFrame hf] at he
        simp at he
      | some fi =>
        rw [resolveLocationE_frame hf] at he
        refine ⟨fi, rfl, ?_⟩
        cases hl : List.lookup (cacheKeyOf fi) w.resultCache with
        | some cached =>
          rw [resolveLocationCore_hit hl] at he
          simp only [Prod.mk.injEq, Except.ok.injEq, Option.some.injEq] at he
          obtain ⟨rfl, rfl⟩ := he
          exact hl
        | none =>
          by_cases hrsc : isNextjsRscUrl fi.url = true
          · rw [resolveLocationCore_rsc hl hrsc] at he
            exact rscFastPath_lookup (ok_pair_match he)
          · rw [resolveLocationCore_standard hl hrsc] at he
            exact standardPath_lookup he

/-- An L1 cache hit returns the cached value without touching the world. -/
theorem resolveLocation_cache_hit (env : Env) (w : World) (s : String) (d : Bool)
    {fi : StackFrameInfo} {v : ResolvedSourceInfo}
    (hf : extractStackFrameInfo s = some fi)
    (hl : List.lookup (cacheKeyOf fi) w.resultCache = some v) :
    resolveLocation env w s d = (some v, w) := by
  unfold resolveLocation
  rw [resolveLocationE_frame hf, resolveLocationCore_hit hl]

/-- Claim C3: after a first `resolveLocation` call returns a non-null
result, a second call with the same stack line (and any debug flag)
returns the same (deep-equal) result, leaves the world unchanged, and in
particular issues zero additional network requests — the L1 cache is
consulted by the frame's `url:line:column` key before any fetch. -/
theorem resolveLocation_idempotent (env : Env) (w : World) (s : String) (d d' : Bool)
    (v : ResolvedSourceInfo) (w1 : World)
    (h : resolveLocation env w s d = (some v, w1)) :
    resolveLocation env w1 s d' = (some v, w1)
    ∧ (resolveLocation env w1 s d').2.requests = w1.requests := by
  obtain ⟨fi, hf, hl⟩ := resolveLocation_some_cached h
  have h2 := resolveLocation_cache_hit env w1 s d' hf hl
  exact ⟨h2, by rw [h2]⟩

/-- A concrete environment in which the standard path fully resolves:
one fetchable generated file with an inline source map mapping every
position to `App.tsx:10:5`. -/
def resolveEnv : Env :=
  { origin := "http://h",
    fetch := fun req =>
      if req.url == "http://h/a.js" then
        some { status := 200, statusText := "OK", body := "filebody" }
      else none,
    inlineMap := fun s => if s == "filebody" then some "THEMAP" else none,
    parseUrl := fun s =>
      if s == "http://h/a.js" then
        some { protocol := "http:", host := "h", pathname := "/a.js", origin := "http://h" }
      else none,
    resolveUrlPathname := fun c _ => some c,
    parseSourceMap := fun s =>
      if s == "THEMAP" then
        some { sourceRoot := none,
               originalPositionFor := fun _ _ =>
                 { source := some "App.tsx", line := some 10, column := some 5,
                   name := some "fn" },
               sourceContentFor := fun _ => some "original code" }
      else none }

/-- The result of the first successful call in the C3 witness. -/
def resolvedPoint : ResolvedSourceInfo :=
  { source := "/App.tsx", line := 10, column := 5, name := some "fn",
    sourceContent := some "original code" }

/-- The world state after the first successful call in the C3 witness. -/
def worldAfterFirst : World :=
  { resultCache := [("http://h/a.js:1:2", resolvedPoint)],
    sourceMapCache := [("http://h/a.js",
      { sourceContent := "filebody", sourceMapContent := "THEMAP" })],
    nextDevServerAvailable := none,
    requests := [Request.get "http://h/a.js"] }

/-- Witness for C3: a concrete first call resolves over the network; the
second call returns the identical result from the L1 cache, leaving the
world — and hence the request log — untouched. -/
theorem resolveLocation_idempotent_witness :
    resolveLocation resolveEnv { } "at fn (http://h/a.js:1:2)" false
      = (some resolvedPoint, worldAfterFirst)
    ∧ resolveLocation resolveEnv worldAfterFirst "at fn (http://h/a.js:1:2)" true
      = (some resolvedPoint, worldAfterFirst)
    ∧ (resolveLocation resolveEnv worldAfterFirst "at fn (http://h/a.js:1:2)" true).2.requests
      = worldAfterFirst.requests := by
  have h1 : resolveLocation resolveEnv { } "at fn (http://h/a.js:1:2)" false
      = (some resolvedPoint, worldAfterFirst) := by decide
  have h2 := resolveLocation_idempotent resolveEnv { } "at fn (http://h/a.js:1:2)" false true
    resolvedPoint worldAfterFirst h1
  exact ⟨h1, h2.1, h2.2⟩

/-! ## Dev-server availability flag (C4) -/

/-- A world transition that leaves the availability flag unchanged and
adds only GET requests. -/
def StepOK (w w' : World) : Prop :=
  w'.nextDevServerAvailable = w.nextDevServerAvailable
  ∧ ∀ r ∈ w'.requests, r ∈ w.requests ∨ r.method = "GET"

theorem StepOK_refl (w : World) : StepOK w w :=
  ⟨rfl, fun _ hr => Or.inl hr⟩

theorem StepOK_trans {w1 w2 w3 : World} (h1 : StepOK w1 w2) (h2 : StepOK w2 w3) :
    StepOK w1 w3 := by
  refine ⟨h2.1.trans h1.1, ?_⟩
  intro r hr
  rcases h2.2 r hr with hm | hg
  · exact h1.2 r hm
  · exact Or.inr hg

theorem StepOK_record {w : World} {req : Request} (h : req.method = "GET") :
    StepOK w (recordRequest w req) := by
  refine ⟨rfl, ?_⟩
  intro r hr
  simp only [recordRequest, List.mem_append, List.mem_singleton] at hr
  rcases hr with hm | rfl
  · exact Or.inl hm
  · exact Or.inr h

theorem doFetch_snd (env : Env) (w : World) (req : Request) :
    (doFetch env w req).2 = recordRequest w req := by
  unfold doFetch
  cases env.fetch req <;> rfl

theorem doFetch_step (env : Env) (w : World) (u : String) :
    StepOK w (doFetch env w (Request.get u)).2 := by
  rw [doFetch_snd]
  exact StepOK_record rfl

theorem fetchSourceFile_step (env : Env) (w : World) (url : String) :
    StepOK w (fetchSourceFile env w url).2 := by
  unfold fetchSourceFile
  by_cases hnf : hasNonFetchableScheme url = true
  · rw [if_pos hnf]
    exact StepOK_refl w
  · rw [if_neg hnf]
    have hstep := doFetch_step env w
      (if strStartsWith url "http" then url else env.origin ++ url)
    split
    · next e w1 heq =>
      rw [heq] at hstep
      exact hstep
    · next resp w1 heq =>
      rw [heq] at hstep
      split <;> exact hstep

theorem fetchExternalMap_snd (env : Env) (w : World) (u : String) :
    (fetchExternalMap env w u).2 = recordRequest w (Request.get u) := by
  unfold fetchExternalMap
  have hd := doFetch_snd env w (Request.get u)
  split
  · next w1 heq => rw [heq] at hd; exact hd
  · next resp w1 heq =>
    rw [heq] at hd
    split <;> exact hd

theorem fetchExternalMap_step (env : Env) (w : World) (u : String) :
    StepOK w (fetchExternalMap env w u).2 := by
  rw [fetchExternalMap_snd]
  exact StepOK_record rfl

theorem resolveSourceMap_step (env : Env) (w : World) (sourceContent sourceUrl : String) :
    StepOK w (resolveSourceMap env w sourceContent sourceUrl).2 := by
  unfold resolveSourceMap
  split
  · exact StepOK_refl w
  · split
    · exact StepOK_refl w
    · split
      · split
        · split
          · exact StepOK_refl w
          · exact StepOK_refl w
        · split
          · split
            · exact StepOK_refl w
            · exact StepOK_refl w
          · exact StepOK_refl w
      · split
        · exact fetchExternalMap_step env w _
        · split
          · exact StepOK_refl w
          · split
            · exact fetchExternalMap_step env w _
            · exact fetchExternalMap_step env w _

theorem fetchSourceMapFromNextDevServer_snd (env : Env) (w : World) (fp : String) (d : Bool) :
    (fetchSourceMapFromNextDevServer env w fp d).2 = recordRequest w (nextMapRequest env fp) := by
  unfold fetchSourceMapFromNextDevServer
  have hd := doFetch_snd env w (nextMapRequest env fp)
  split
  · next w1 heq => rw [heq] at hd; exact hd
  · next resp w1 heq =>
    rw [heq] at hd
    split <;> exact hd

theorem standardFinish_snd (env : Env) (w : World) (fi : StackFrameInfo) (ck : String)
    (smd : CachedSourceMapData) (eu : String) :
    ((standardFinish env w fi ck smd eu).2).requests = w.requests
    ∧ ((standardFinish env w fi ck smd eu).2).nextDevServerAvailable
      = w.nextDevServerAvailable := by
  unfold standardFinish
  split
  · exact ⟨rfl, rfl⟩
  · exact ⟨rfl, rfl⟩

theorem standardFinish_step (env : Env) (w : World) (fi : StackFrameInfo) (ck : String)
    (smd : CachedSourceMapData) (eu : String) :
    StepOK w (standardFinish env w fi ck smd eu).2 := by
  obtain ⟨hr, hf⟩ := standardFinish_snd env w fi ck smd eu
  exact ⟨hf, fun r hmem => Or.inl (hr ▸ hmem)⟩

theorem cacheMapData_step (w : World) (u e : String) (smd : CachedSourceMapData) :
    StepOK w (cacheMapData w u e smd) := by
  unfold cacheMapData
  split
  · exact ⟨rfl, fun _ hr => Or.inl hr⟩
  · exact ⟨rfl, fun _ hr => Or.inl hr⟩

theorem standardPath_step (env : Env) (w : World) (fi : StackFrameInfo) (ck : String) :
    StepOK w (standardPath env w fi ck).2 := by
  unfold standardPath
  split
  · -- L2 hit: the tail only writes the result cache
    next smd heq =>
    have hsf := standardFinish_step env w fi ck smd fi.url
    split
    · next r w5 heq2 =>
      rw [heq2] at hsf
      exact hsf
  · -- L2 miss
    next heq =>
    have hfetch := fetchSourceFile_step env w fi.url
    split
    · next e w1 heq2 =>
      rw [heq2] at hfetch
      exact hfetch
    · next content effectiveUrl w1 heq2 =>
      rw [heq2] at hfetch
      have hmap := resolveSourceMap_step env w1 content effectiveUrl
      split
      · next e w2 heq3 =>
        rw [heq3] at hmap
        exact StepOK_trans hfetch hmap
      · next w2 heq3 =>
        rw [heq3] at hmap
        exact StepOK_trans hfetch hmap
      · next smc w2 heq3 =>
        rw [heq3] at hmap
        have hcache := cacheMapData_step w2 fi.url effectiveUrl
          { sourceContent := content, sourceMapContent := smc }
        have hsf := standardFinish_step env
          (cacheMapData w2 fi.url effectiveUrl
            { sourceContent := content, sourceMapContent := smc })
          fi ck { sourceContent := content, sourceMapContent := smc } effectiveUrl
        split
        · next r w5 heq4 =>
          rw [heq4] at hsf
          exact StepOK_trans hfetch (StepOK_trans hmap (StepOK_trans hcache hsf))

/-- Once the availability flag is false, Strategy 1 returns immediately:
no request, no state change. -/
theorem resolveViaNextDevServer_disabled {env : Env} {w : World} {fi : StackFrameInfo}
    {d : Bool} (h : w.nextDevServerAvailable = some false) :
    resolveViaNextDevServer env w fi d = (none, w) := by
  unfold resolveViaNextDevServer
  have : (w.nextDevServerAvailable == some false) = true := by rw [h]; rfl
  rw [this]
  rfl

theorem rscStrategy2_step (env : Env) (w : World) (fi : StackFrameInfo) (ck fp : String)
    (d : Bool) : StepOK w (rscStrategy2 env w fi ck fp d).2 := by
  unfold rscStrategy2
  have hfm : StepOK w (fetchSourceMapFromNextDevServer env w fp d).2 := by
    rw [fetchSourceMapFromNextDevServer_snd]
    exact StepOK_record rfl
  split
  · next w2 heq2 =>
    rw [heq2] at hfm
    exact hfm
  · next smc w2 heq2 =>
    rw [heq2] at hfm
    split
    · exact hfm
    · next info smRoot heq3 =>
      exact StepOK_trans hfm ⟨rfl, fun _ hr => Or.inl hr⟩

/-- With the flag false, the whole fast path reduces to Strategy 2. -/
theorem rscFastPath_disabled {env : Env} {w : World} {fi : StackFrameInfo} {ck : String}
    {d : Bool} (h : w.nextDevServerAvailable = some false) :
    rscFastPath env w fi ck d
      = match extractFilePathFromRscUrl env fi.url with
        | none => (none, w)
        | some filePath => rscStrategy2 env w fi ck filePath d := by
  unfold rscFastPath
  rw [resolveViaNextDevServer_disabled h]

theorem rscFastPath_disabled_step {env : Env} {w : World} {fi : StackFrameInfo} {ck : String}
    {d : Bool} (h : w.nextDevServerAvailable = some false) :
    StepOK w (rscFastPath env w fi ck d).2 := by
  rw [rscFastPath_disabled h]
  cases hfp : extractFilePathFromRscUrl env fi.url with
  | none => exact StepOK_refl w
  | some fp => exact rscStrategy2_step env w fi ck fp d

theorem resolveLocation_snd (env : Env) (w : World) (s : String) (d : Bool) :
    (resolveLocation env w s d).2 = (resolveLocationE env w s d).2 := by
  unfold resolveLocation
  rcases he : resolveLocationE env w s d with ⟨r, w1⟩
  cases r <;> rfl

/-- Under a false availability flag, a whole `resolveLocation` call keeps
the flag false and adds only GET requests. -/
theorem resolveLocation_disabled_step {env : Env} {w : World} {s : String} {d : Bool}
    (h : w.nextDevServerAvailable = some false) :
    StepOK w (resolveLocation env w s d).2 := by
  rw [resolveLocation_snd]
  cases hf : extractStackFrameInfo s with
  | none =>
    rw [resolveLocationE_noFrame hf]
    exact StepOK_refl w
  | some fi =>
    rw [resolveLocationE_frame hf]
    cases hl : List.lookup (cacheKeyOf fi) w.resultCache with
    | some v =>
      rw [resolveLocationCore_hit hl]
      exact StepOK_refl w
    | none =>
      by_cases hrsc : isNextjsRscUrl fi.url = true
      · rw [resolveLocationCore_rsc hl hrsc]
        have hstep := @rscFastPath_disabled_step env w fi (cacheKeyOf fi) d h
        rcases hr : rscFastPath env w fi (cacheKeyOf fi) d with ⟨rr, wr⟩
        rw [hr] at hstep
        exact hstep
      · rw [resolveLocationCore_standard hl hrsc]
        exact standardPath_step env w fi (cacheKeyOf fi)

theorem doFetch_fetch_some {env : Env} {w : World} {req : Request} {resp : HttpResponse}
    (h : env.fetch req = some resp) :
    doFetch env w req = (.ok resp, recordRequest w req) := by
  unfold doFetch
  rw [h]

/-- A 404 from the full-resolution endpoint sets the availability flag to
false (and the probe returns null). -/
theorem nextPostStep_404 {env : Env} {w : World} {fi : StackFrameInfo} {fp : String}
    {resp : HttpResponse}
    (hfetch : env.fetch (nextPostRequest env fp fi) = some resp)
    (hstatus : resp.status = 404) :
    nextPostStep env w fi fp
      = (none, { recordRequest w (nextPostRequest env fp fi)
                  with nextDevServerAvailable := some false }) := by
  have hok : resp.ok = false := by
    unfold HttpResponse.ok
    rw [hstatus]
    decide
  have h404 : (resp.status == 404) = true := by rw [hstatus]; rfl
  unfold nextPostStep
  rw [doFetch_fetch_some hfetch]
  simp only [hok, Bool.not_false, if_true, h404]

/-- With the flag not yet false and an extractable file path, the probe
runs the POST step. -/
theorem resolveViaNextDevServer_probe {env : Env} {w : World} {fi : StackFrameInfo}
    {d : Bool} {fp : String}
    (hflag : ¬(w.nextDevServerAvailable = some false))
    (hfp : extractFilePathFromRscUrl env fi.url = some fp) :
    resolveViaNextDevServer env w fi d = nextPostStep env w fi fp := by
  unfold resolveViaNextDevServer
  have hbeq : (w.nextDevServerAvailable == some false) = false := by
    simp only [beq_eq_false_iff_ne, ne_eq]
    exact hflag
  rw [hbeq]
  simp only [Bool.false_eq_true, if_false]
  rw [hfp]

/-- Under a false flag, a Next RSC frame that misses the L1 cache still
triggers the Strategy 2 GET request. -/
theorem rscStrategy2_mem (env : Env) (w : World) (fi : StackFrameInfo) (ck fp : String)
    (d : Bool) : nextMapRequest env fp ∈ (rscStrategy2 env w fi ck fp d).2.requests := by
  unfold rscStrategy2
  have hmem : nextMapRequest env fp ∈ (fetchSourceMapFromNextDevServer env w fp d).2.requests := by
    rw [fetchSourceMapFromNextDevServer_snd]
    simp [recordRequest]
  split
  · next w2 heq =>
    rw [heq] at hmem
    exact hmem
  · next smc w2 heq =>
    rw [heq] at hmem
    split
    · exact hmem
    · next info smRoot heq2 => exact hmem

/-- Claim C4: once the full-resolution endpoint has answered 404 the
availability flag is false (conjunct 1); while it is false, every
`resolveLocation` call leaves it false and issues only GET requests — in
particular it never issues the POST to the full-resolution endpoint
(conjunct 2); Strategy 2's raw-source-map GET is still attempted for
known-dev-server debug URLs that miss the L1 cache (conjunct 3); and
`clearCaches` resets the flag to unknown (conjunct 4). -/
theorem devServerUnavailable_spec :
    (∀ (env : Env) (w : World) (fi : StackFrameInfo) (d : Bool) (fp : String)
        (resp : HttpResponse),
      ¬(w.nextDevServerAvailable = some false) →
      extractFilePathFromRscUrl env fi.url = some fp →
      env.fetch (nextPostRequest env fp fi) = some resp →
      resp.status = 404 →
      resolveViaNextDevServer env w fi d
        = (none, { recordRequest w (nextPostRequest env fp fi)
                    with nextDevServerAvailable := some false }))
    ∧ (∀ (env : Env) (w : World) (s : String) (d : Bool),
      w.nextDevServerAvailable = some false →
      ((resolveLocation env w s d).2).nextDevServerAvailable = some false
      ∧ ∀ r ∈ ((resolveLocation env w s d).2).requests,
          r ∈ w.requests ∨ (r.method = "GET" ∧ ¬(r.method = "POST")))
    ∧ (∀ (env : Env) (w : World) (s : String) (d : Bool) (fi : StackFrameInfo) (fp : String),
      w.nextDevServerAvailable = some false →
      extractStackFrameInfo s = some fi →
      List.lookup (cacheKeyOf fi) w.resultCache = none →
      isNextjsRscUrl fi.url = true →
      extractFilePathFromRscUrl env fi.url = some fp →
      nextMapRequest env fp ∈ ((resolveLocation env w s d).2).requests)
    ∧ (∀ w : World, (clearCaches w).nextDevServerAvailable = none) := by
  refine ⟨?_, ?_, ?_, ?_⟩
  · intro env w fi d fp resp hflag hfp hfetch hstatus
    rw [resolveViaNextDevServer_probe hflag hfp]
    exact nextPostStep_404 hfetch hstatus
  · intro env w s d hflag
    obtain ⟨hflag', hreq⟩ := @resolveLocation_disabled_step env w s d hflag
    refine ⟨hflag'.trans hflag, ?_⟩
    intro r hr
    rcases hreq r hr with hm | hg
    · exact Or.inl hm
    · exact Or.inr ⟨hg, by rw [hg]; decide⟩
  · intro env w s d fi fp hflag hf hl hrsc hfp
    rw [resolveLocation_snd, resolveLocationE_frame hf, resolveLocationCore_rsc hl hrsc]
    have hmem := rscStrategy2_mem env w fi (cacheKeyOf fi) fp d
    have heq : rscFastPath env w fi (cacheKeyOf fi) d = rscStrategy2 env w fi (cacheKeyOf fi) fp d := by
      rw [rscFastPath_disabled hflag, hfp]
    rcases hr : rscFastPath env w fi (cacheKeyOf fi) d with ⟨rr, wr⟩
    rw [hr] at heq
    rw [← heq] at hmem
    exact hmem
  · intro w
    rfl

/-- A dev-server environment whose POST endpoint answers 404 while GET
requests succeed. -/
def rsc404Env : Env :=
  { origin := "http://site",
    fetch := fun req =>
      if req.method == "POST" then some { status := 404, statusText := "Not Found", body := "" }
      else some { status := 200, statusText := "OK", body := "mapdata" } }

/-- The concrete RSC stack line of the C4 witness. -/
def rscLine : String := "at Page (about://React/Server/file:///proj/.next/server/x.js:5:7)"

/-- The frame parsed from `rscLine`. -/
def rscFrame : StackFrameInfo :=
  { url := "about://React/Server/file:///proj/.next/server/x.js",
    line := 5, column := 7, functionName := some "Page" }

/-- A world whose availability flag is already false. -/
def disabledWorld : World := { nextDevServerAvailable := some false }

/-- Witness for C4: the 404 answer sets the flag; with the flag false a
full `resolveLocation` call keeps it false; the Strategy 2 GET request is
still issued for the RSC frame; and `clearCaches` resets the flag. -/
theorem devServerUnavailable_spec_witness :
    resolveViaNextDevServer rsc404Env { } rscFrame false
      = (none, { recordRequest { } (nextPostRequest rsc404Env "/proj/.next/server/x.js" rscFrame)
                  with nextDevServerAvailable := some false })
    ∧ ((resolveLocation rsc404Env disabledWorld rscLine false).2).nextDevServerAvailable
        = some false
    ∧ nextMapRequest rsc404Env "/proj/.next/server/x.js"
        ∈ ((resolveLocation rsc404Env disabledWorld rscLine false).2).requests
    ∧ (clearCaches { }).nextDevServerAvailable = none := by
  refine ⟨?_, ?_, ?_, ?_⟩
  · exact devServerUnavailable_spec.1 rsc404Env { } rscFrame false "/proj/.next/server/x.js"
      { status := 404, statusText := "Not Found", body := "" }
      (by decide) (by decide) (by decide) rfl
  · exact (devServerUnavailable_spec.2.1 rsc404Env disabledWorld rscLine false (by decide)).1
  · exact devServerUnavailable_spec.2.2.1 rsc404Env disabledWorld rscLine false rscFrame
      "/proj/.next/server/x.js" (by decide) (by decide) (by decide) (by decide) (by decide)
  · exact devServerUnavailable_spec.2.2.2 { }

/-! ## Greedy-matcher lemmas (C7) -/

theorem takeWhile_all {p : Char → Bool} {l : List Char} (h : ∀ c ∈ l, p c = true) :
    l.takeWhile p = l := by
  induction l with
  | nil => rfl
  | cons c t ih =>
    have hc := h c (List.mem_cons_self _ _)
    simp only [List.takeWhile_cons, hc, if_true]
    rw [ih (fun x hx => h x (List.mem_cons_of_mem _ hx))]

theorem takeWhile_append_stop {p : Char → Bool} {l₁ : List Char}
    (h : ∀ c ∈ l₁, p c = true) {c : Char} (hc : p c = false) (l₂ : List Char) :
    (l₁ ++ c :: l₂).takeWhile p = l₁ := by
  induction l₁ with
  | nil => simp [List.takeWhile_cons, hc]
  | cons a t ih =>
    have ha := h a (List.mem_cons_self _ _)
    simp only [List.cons_append, List.takeWhile_cons, ha, if_true]
    rw [ih (fun x hx => h x (List.mem_cons_of_mem _ hx))]

theorem drop_len_add (l₁ l₂ : List Char) (j : Nat) :
    (l₁ ++ l₂).drop (l₁.length + j) = l₂.drop j := by
  rw [← List.drop_drop j l₁.length (l₁ ++ l₂), List.drop_left]

/-- Greedy success at the top attempt: when the continuation succeeds at
exactly the maximal run, the quantifier consumes it. -/
theorem matchRepK_top {k : List Char → Option (List String)} {cap : Bool} {s : List Char}
    {minRep : Nat} {caps : List String} (N : Nat) (hmin : minRep ≤ N)
    (hk : k (s.drop N) = some caps) :
    matchRepK k cap s minRep N = some (if cap then String.mk (s.take N) :: caps else caps) := by
  cases N with
  | zero =>
    have hm0 : minRep = 0 := Nat.le_zero.mp hmin
    rw [List.drop_zero] at hk
    simp [matchRepK, hm0, hk]
  | succ n =>
    have hm : ¬(n + 1 < minRep) := by omega
    simp [matchRepK, hm, hk]

/-- Greedy descent: when the continuation fails at every length above `n`
and succeeds at `n`, the quantifier consumes exactly `n` characters. -/
theorem matchRepK_greedy {k : List Char → Option (List String)} {cap : Bool} {s : List Char}
    {minRep : Nat} {caps : List String} {n : Nat} (hmin : minRep ≤ n)
    (hk : k (s.drop n) = some caps) :
    ∀ N, n ≤ N → (∀ m, n < m → m ≤ N → k (s.drop m) = none) →
    matchRepK k cap s minRep N = some (if cap then String.mk (s.take n) :: caps else caps) := by
  intro N
  induction N with
  | zero =>
    intro hle _
    have : n = 0 := Nat.le_zero.mp hle
    subst this
    exact matchRepK_top 0 hmin hk
  | succ N ih =>
    intro hle hfail
    rcases Nat.lt_or_ge n (N + 1) with hlt | hge
    · have hm : ¬(N + 1 < minRep) := by omega
      have hfl : k (s.drop (N + 1)) = none := hfail (N + 1) hlt (Nat.le_refl _)
      simp only [matchRepK, hm, if_false, hfl]
      exact ih (by omega) (fun m hm1 hm2 => hfail m hm1 (Nat.le_succ_of_le hm2))
    · have : n = N + 1 := by omega
      subst this
      exact matchRepK_top (N + 1) hmin hk

/-- When the continuation fails at every admissible length, the quantifier
fails. -/
theorem matchRepK_none {k : List Char → Option (List String)} {cap : Bool} {s : List Char}
    {minRep : Nat} :
    ∀ N, (∀ m, minRep ≤ m → m ≤ N → k (s.drop m) = none) →
    matchRepK k cap s minRep N = none := by
  intro N
  induction N with
  | zero =>
    intro hfail
    by_cases hm0 : minRep = 0
    · have := hfail 0 (by omega) (by omega)
      rw [List.drop_zero] at this
      simp [matchRepK, hm0, this]
    · simp [matchRepK, hm0]
  | succ N ih =>
    intro hfail
    by_cases hm : N + 1 < minRep
    · simp [matchRepK, hm]
    · have hfl : k (s.drop (N + 1)) = none := hfail (N + 1) (by omega) (Nat.le_refl _)
      simp only [matchRepK, hm, if_false, hfl]
      exact ih (fun m hm1 hm2 => hfail m hm1 (Nat.le_succ_of_le hm2))

/-- A literal item fails whenever the head is not that literal (or the
input is empty). -/
theorem matchItems_lit_ne {c : Char} {R : List RItem} {l : List Char}
    (h : ∀ x, l.head? = some x → (x == c) = false) : matchItems (.lit c :: R) l = none := by
  cases l with
  | nil => rfl
  | cons x t =>
    have := h x rfl
    simp [matchItems, this]

theorem matchItems_lit_eq {c : Char} {R : List RItem} {t : List Char} :
    matchItems (.lit c :: R) (c :: t) = matchItems R t := by
  simp [matchItems]

theorem matchItems_rep (f : Char → Bool) (min1 cap : Bool) (items : List RItem)
    (s : List Char) :
    matchItems (.rep f min1 cap :: items) s
      = matchRepK (fun s2 => matchItems items s2) cap s (if min1 then 1 else 0)
          ((s.takeWhile f).length) := rfl

theorem isDigit_ne_colon {x : Char} (h : x.isDigit = true) : (x == ':') = false := by
  cases hb : x == ':' with
  | false => rfl
  | true =>
    exfalso
    have hx : x = ':' := by simpa using hb
    rw [hx] at h
    exact absurd h (by decide)

/-- A colon literal fails at any position strictly inside a digit run. -/
theorem lit_colon_fail_digits {R : List RItem} {ds : List Char}
    (h : ∀ c ∈ ds, c.isDigit = true) (tail : List Char) :
    ∀ t, t < ds.length → matchItems (.lit ':' :: R) ((ds ++ tail).drop t) = none := by
  induction ds with
  | nil => intro t ht; simp at ht
  | cons d ds' ih =>
    intro t ht
    cases t with
    | zero =>
      rw [List.drop_zero]
      apply matchItems_lit_ne
      intro x hx
      have hxd : x = d := by
        rw [List.cons_append] at hx
        simpa using hx.symm
      rw [hxd]
      exact isDigit_ne_colon (h d (List.mem_cons_self _ _))
    | succ t' =>
      have hstep : ((d :: ds') ++ tail).drop (t' + 1) = (ds' ++ tail).drop t' := rfl
      rw [hstep]
      exact ih (fun c hc => h c (List.mem_cons_of_mem _ hc)) t' (by simpa using ht)

/-- A colon literal fails at every nonzero position of `digits ++ ")"`. -/
theorem digitsParen_no_colon {R : List RItem} {Cs : List Char}
    (hCs : ∀ c ∈ Cs, c.isDigit = true) :
    ∀ m, 1 ≤ m → m ≤ Cs.length →
      matchItems (.lit ':' :: R) ((Cs ++ [')']).drop m) = none := by
  intro m h1 h2
  rcases Nat.lt_or_ge m Cs.length with hlt | hge
  · exact lit_colon_fail_digits hCs [')'] m hlt
  · have hm : m = Cs.length := by omega
    subst hm
    rw [List.drop_left]
    apply matchItems_lit_ne
    intro x hx
    have hxp : x = ')' := by simpa using hx.symm
    rw [hxp]
    decide

/-- After the URL group, the pattern tail `:(\d+):(\d+)\)` fails at every
split strictly beyond the URL: every proper suffix of `:L:C)` mismatches. -/
theorem tail5_fail {Ls Cs : List Char}
    (hLs : ∀ c ∈ Ls, c.isDigit = true) (hCs : ∀ c ∈ Cs, c.isDigit = true) :
    ∀ j, 1 ≤ j →
      matchItems [.lit ':', .rep Char.isDigit true true, .lit ':',
          .rep Char.isDigit true true, .lit ')']
        ((':' :: (Ls ++ (':' :: (Cs ++ [')'])))).drop j) = none := by
  intro j hj
  obtain ⟨i, rfl⟩ : ∃ i, j = i + 1 := ⟨j - 1, by omega⟩
  have hstep : ((':' :: (Ls ++ (':' :: (Cs ++ [')'])))).drop (i + 1))
      = (Ls ++ (':' :: (Cs ++ [')']))).drop i := rfl
  rw [hstep]
  rcases Nat.lt_or_ge i Ls.length with hi | hi
  · exact lit_colon_fail_digits hLs _ i hi
  · obtain ⟨t, rfl⟩ : ∃ t, i = Ls.length + t := ⟨i - Ls.length, by omega⟩
    rw [drop_len_add]
    cases t with
    | zero =>
      rw [List.drop_zero, matchItems_lit_eq, matchItems_rep]
      have hmax : (((Cs ++ [')']).takeWhile Char.isDigit)).length = Cs.length := by
        rw [takeWhile_append_stop hCs (by decide) []]
      rw [hmax]
      apply matchRepK_none
      intro m h1 h2
      have hm1 : 1 ≤ m := by simpa using h1
      exact digitsParen_no_colon hCs m hm1 h2
    | succ t' =>
      have hstep2 : ((':' :: (Cs ++ [')'])).drop (t' + 1)) = (Cs ++ [')']).drop t' := rfl
      rw [hstep2]
      rcases Nat.lt_or_ge t' Cs.length with ht | ht
      · exact lit_colon_fail_digits hCs _ t' ht
      · obtain ⟨u, rfl⟩ : ∃ u, t' = Cs.length + u := ⟨t' - Cs.length, by omega⟩
        rw [drop_len_add]
        cases u with
        | zero =>
          rw [List.drop_zero]
          apply matchItems_lit_ne
          intro x hx
          have hxp : x = ')' := by simpa using hx.symm
          rw [hxp]
          decide
        | succ u' =>
          have hnil : ([')'] : List Char).drop (u' + 1) = [] := by simp
          rw [hnil]
          rfl

theorem isDigit_ne_char {x c : Char} (h : x.isDigit = true) (hc : c.isDigit = false) :
    (x == c) = false := by
  cases hb : x == c with
  | false => rfl
  | true =>
    exfalso
    have hx : x = c := by simpa using hb
    rw [hx] at h
    rw [h] at hc
    cases hc

theorem isDigit_jsDot {c : Char} (h : c.isDigit = true) : jsDot c = true := by
  unfold jsDot
  rw [isDigit_ne_char h (by decide), isDigit_ne_char h (by decide)]
  rfl

/-- A digit quantifier group standing before a non-digit boundary consumes
exactly the digit run and captures it. -/
theorem rep_digits {rest : List RItem} {c : Char} {l₂ : List Char} {caps : List String}
    {Ds : String} (hDs0 : Ds.data ≠ []) (hDs1 : ∀ x ∈ Ds.data, x.isDigit = true)
    (hc : c.isDigit = false)
    (hk : matchItems rest (c :: l₂) = some caps) :
    matchItems (.rep Char.isDigit true true :: rest) (Ds.data ++ (c :: l₂))
      = some (Ds :: caps) := by
  rw [matchItems_rep]
  have hmax : (((Ds.data ++ (c :: l₂)).takeWhile Char.isDigit)).length = Ds.data.length := by
    rw [takeWhile_append_stop hDs1 hc l₂]
  rw [hmax]
  have hk' : matchItems rest ((Ds.data ++ (c :: l₂)).drop Ds.data.length) = some caps := by
    rw [List.drop_left]
    exact hk
  have hmin : (if true then 1 else 0) ≤ Ds.data.length := by
    simpa using List.length_pos.mpr hDs0
  have htop := @matchRepK_top (fun s2 => matchItems rest s2) true (Ds.data ++ (c :: l₂))
    (if true then 1 else 0) caps Ds.data.length hmin hk'
  rw [htop]
  simp [List.take_left, mk_data]

/-- The core of C7: the full Chrome/V8 pattern, matched against a
well-formed frame line laid out as a character list, captures exactly the
function-name run (with its separating space), the URL, and the two digit
runs. -/
theorem matchItems_chrome (fn url Ls Cs : String)
    (hfn0 : fn.data ≠ [])
    (hfn1 : ∀ c ∈ fn.data, (c == '(') = false)
    (hfn2 : ∀ c, fn.data.head? = some c → c.isWhitespace = false)
    (hurl0 : url.data ≠ [])
    (hurl1 : ∀ c ∈ url.data, jsDot c = true)
    (hLs0 : Ls.data ≠ []) (hLs1 : ∀ c ∈ Ls.data, c.isDigit = true)
    (hCs0 : Cs.data ≠ []) (hCs1 : ∀ c ∈ Cs.data, c.isDigit = true) :
    matchItems chromeFnPattern
      ('a' :: 't' :: ' ' :: (fn.data ++ (' ' :: '(' ::
        (url.data ++ (':' :: (Ls.data ++ (':' :: (Cs.data ++ [')']))))))))
      = some [String.mk (fn.data ++ [' ']), url, Ls, Cs] := by
  -- the final `:(\d+):(\d+)\)` tail succeeds on `:L:C)`
  have hB : matchItems [RItem.lit ')'] [')'] = some [] := rfl
  have hCgrp : matchItems [RItem.rep Char.isDigit true true, RItem.lit ')']
      (Cs.data ++ (')' :: [])) = some [Cs] :=
    rep_digits hCs0 hCs1 (by decide) hB
  have hD : matchItems [RItem.lit ':', RItem.rep Char.isDigit true true, RItem.lit ')']
      (':' :: (Cs.data ++ [')'])) = some [Cs] := by
    rw [matchItems_lit_eq]
    exact hCgrp
  have hE : matchItems [RItem.rep Char.isDigit true true, RItem.lit ':',
      RItem.rep Char.isDigit true true, RItem.lit ')']
      (Ls.data ++ (':' :: (Cs.data ++ [')']))) = some [Ls, Cs] :=
    rep_digits hLs0 hLs1 (by decide) hD
  have hF : matchItems [RItem.lit ':', RItem.rep Char.isDigit true true, RItem.lit ':',
      RItem.rep Char.isDigit true true, RItem.lit ')']
      (':' :: (Ls.data ++ (':' :: (Cs.data ++ [')'])))) = some [Ls, Cs] := by
    rw [matchItems_lit_eq]
    exact hE
  -- the `(.+)` group consumes exactly the URL
  have hall : ∀ c ∈ url.data ++ (':' :: (Ls.data ++ (':' :: (Cs.data ++ [')'])))),
      jsDot c = true := by
    intro c hc
    rcases List.mem_append.mp hc with h | h
    · exact hurl1 c h
    · rcases List.mem_cons.mp h with rfl | h
      · decide
      · rcases List.mem_append.mp h with h | h
        · exact isDigit_jsDot (hLs1 c h)
        · rcases List.mem_cons.mp h with rfl | h
          · decide
          · rcases List.mem_append.mp h with h | h
            · exact isDigit_jsDot (hCs1 c h)
            · rcases List.mem_cons.mp h with rfl | h
              · decide
              · simp at h
  have hG : matchItems (RItem.rep jsDot true true :: [RItem.lit ':',
      RItem.rep Char.isDigit true true, RItem.lit ':',
      RItem.rep Char.isDigit true true, RItem.lit ')'])
      (url.data ++ (':' :: (Ls.data ++ (':' :: (Cs.data ++ [')'])))))
      = some [url, Ls, Cs] := by
    rw [matchItems_rep]
    have hmax : (((url.data ++ (':' :: (Ls.data ++ (':' :: (Cs.data ++ [')']))))).takeWhile
        jsDot)).length
        = (url.data ++ (':' :: (Ls.data ++ (':' :: (Cs.data ++ [')']))))).length := by
      rw [takeWhile_all hall]
    rw [hmax]
    have hk : matchItems [RItem.lit ':', RItem.rep Char.isDigit true true, RItem.lit ':',
        RItem.rep Char.isDigit true true, RItem.lit ')']
        ((url.data ++ (':' :: (Ls.data ++ (':' :: (Cs.data ++ [')']))))).drop url.data.length)
        = some [Ls, Cs] := by
      rw [List.drop_left]
      exact hF
    have hmin : (if true then 1 else 0) ≤ url.data.length := by
      simpa using List.length_pos.mpr hurl0
    have hlen : url.data.length
        ≤ (url.data ++ (':' :: (Ls.data ++ (':' :: (Cs.data ++ [')']))))).length := by
      rw [List.length_append]
      omega
    have hfail : ∀ m, url.data.length < m →
        m ≤ (url.data ++ (':' :: (Ls.data ++ (':' :: (Cs.data ++ [')']))))).length →
        matchItems [RItem.lit ':', RItem.rep Char.isDigit true true, RItem.lit ':',
          RItem.rep Char.isDigit true true, RItem.lit ')']
          ((url.data ++ (':' :: (Ls.data ++ (':' :: (Cs.data ++ [')']))))).drop m) = none := by
      intro m h1 h2
      obtain ⟨j, rfl⟩ : ∃ j, m = url.data.length + j := ⟨m - url.data.length, by omega⟩
      rw [drop_len_add]
      exact tail5_fail hLs1 hCs1 j (by omega)
    have hmain := @matchRepK_greedy (fun s2 => matchItems [RItem.lit ':',
        RItem.rep Char.isDigit true true, RItem.lit ':',
        RItem.rep Char.isDigit true true, RItem.lit ')'] s2) true
      (url.data ++ (':' :: (Ls.data ++ (':' :: (Cs.data ++ [')'])))))
      (if true then 1 else 0) [Ls, Cs] url.data.length hmin hk
      ((url.data ++ (':' :: (Ls.data ++ (':' :: (Cs.data ++ [')']))))).length) hlen hfail
    rw [hmain]
    simp [List.take_left, mk_data]
  -- `\s*\(`: no whitespace before the parenthesis
  have hH : matchItems (RItem.rep jsWs false false :: RItem.lit '(' ::
      RItem.rep jsDot true true :: [RItem.lit ':', RItem.rep Char.isDigit true true,
      RItem.lit ':', RItem.rep Char.isDigit true true, RItem.lit ')'])
      ('(' :: (url.data ++ (':' :: (Ls.data ++ (':' :: (Cs.data ++ [')']))))))
      = some [url, Ls, Cs] := by
    rw [matchItems_rep]
    have hwsp : jsWs '(' = false := by decide
    have hmax : ((('(' :: (url.data ++ (':' :: (Ls.data ++ (':' :: (Cs.data ++ [')'])))))).takeWhile
        jsWs)).length = 0 := by
      rw [List.takeWhile_cons, hwsp]
      rfl
    rw [hmax]
    have hk : matchItems (RItem.lit '(' :: RItem.rep jsDot true true :: [RItem.lit ':',
        RItem.rep Char.isDigit true true, RItem.lit ':',
        RItem.rep Char.isDigit true true, RItem.lit ')'])
        (('(' :: (url.data ++ (':' :: (Ls.data ++ (':' :: (Cs.data ++ [')'])))))).drop 0)
        = some [url, Ls, Cs] := by
      rw [List.drop_zero, matchItems_lit_eq]
      exact hG
    have htop := @matchRepK_top (fun s2 => matchItems (RItem.lit '(' ::
        RItem.rep jsDot true true :: [RItem.lit ':', RItem.rep Char.isDigit true true,
        RItem.lit ':', RItem.rep Char.isDigit true true, RItem.lit ')']) s2) false
      ('(' :: (url.data ++ (':' :: (Ls.data ++ (':' :: (Cs.data ++ [')']))))))
      (if false then 1 else 0) [url, Ls, Cs] 0 (by simp) hk
    rw [htop]
    simp
  -- `([^(]+)`: the group swallows the name and the separating space
  have hI : matchItems (RItem.rep (fun c => !(c == '(')) true true ::
      RItem.rep jsWs false false :: RItem.lit '(' ::
      RItem.rep jsDot true true :: [RItem.lit ':', RItem.rep Char.isDigit true true,
      RItem.lit ':', RItem.rep Char.isDigit true true, RItem.lit ')'])
      (fn.data ++ (' ' :: '(' :: (url.data ++ (':' :: (Ls.data ++ (':' :: (Cs.data ++ [')'])))))))
      = some [String.mk (fn.data ++ [' ']), url, Ls, Cs] := by
    have hassoc : fn.data ++ (' ' :: '(' ::
        (url.data ++ (':' :: (Ls.data ++ (':' :: (Cs.data ++ [')']))))))
        = (fn.data ++ [' ']) ++ ('(' ::
          (url.data ++ (':' :: (Ls.data ++ (':' :: (Cs.data ++ [')'])))))) := by
      simp
    rw [hassoc, matchItems_rep]
    have hpred : ∀ c ∈ fn.data ++ [' '], (fun c => !(c == '(')) c = true := by
      intro c hc
      rcases List.mem_append.mp hc with h | h
      · have hcc := hfn1 c h
        simp [hcc]
      · rcases List.mem_cons.mp h with rfl | h
        · decide
        · simp at h
    have hstop : (fun c => !(c == '(')) '(' = false := by decide
    have hmax : ((((fn.data ++ [' ']) ++ ('(' ::
        (url.data ++ (':' :: (Ls.data ++ (':' :: (Cs.data ++ [')']))))))).takeWhile
        (fun c => !(c == '(')))).length = (fn.data ++ [' ']).length := by
      rw [takeWhile_append_stop hpred hstop]
    rw [hmax]
    have hk : matchItems (RItem.rep jsWs false false :: RItem.lit '(' ::
        RItem.rep jsDot true true :: [RItem.lit ':', RItem.rep Char.isDigit true true,
        RItem.lit ':', RItem.rep Char.isDigit true true, RItem.lit ')'])
        (((fn.data ++ [' ']) ++ ('(' ::
          (url.data ++ (':' :: (Ls.data ++ (':' :: (Cs.data ++ [')']))))))).drop
          (fn.data ++ [' ']).length)
        = some [url, Ls, Cs] := by
      rw [List.drop_left]
      exact hH
    have hmin : (if true then 1 else 0) ≤ (fn.data ++ [' ']).length := by
      simp
    have htop := @matchRepK_top (fun s2 => matchItems (RItem.rep jsWs false false ::
        RItem.lit '(' :: RItem.rep jsDot true true :: [RItem.lit ':',
        RItem.rep Char.isDigit true true, RItem.lit ':',
        RItem.rep Char.isDigit true true, RItem.lit ')']) s2) true
      ((fn.data ++ [' ']) ++ ('(' ::
        (url.data ++ (':' :: (Ls.data ++ (':' :: (Cs.data ++ [')'])))))))
      (if true then 1 else 0) [url, Ls, Cs] (fn.data ++ [' ']).length hmin hk
    rw [htop, if_pos rfl, List.take_left]
  -- `\s+` after `at`: exactly the single separating space
  have hJ : matchItems (RItem.rep jsWs true false ::
      RItem.rep (fun c => !(c == '(')) true true ::
      RItem.rep jsWs false false :: RItem.lit '(' ::
      RItem.rep jsDot true true :: [RItem.lit ':', RItem.rep Char.isDigit true true,
      RItem.lit ':', RItem.rep Char.isDigit true true, RItem.lit ')'])
      (' ' :: (fn.data ++ (' ' :: '(' ::
        (url.data ++ (':' :: (Ls.data ++ (':' :: (Cs.data ++ [')']))))))))
      = some [String.mk (fn.data ++ [' ']), url, Ls, Cs] := by
    obtain ⟨c₀, rest, hfn⟩ : ∃ c₀ rest, fn.data = c₀ :: rest := by
      cases hd : fn.data with
      | nil => exact absurd hd hfn0
      | cons a b => exact ⟨a, b, rfl⟩
    have hc₀ : jsWs c₀ = false := hfn2 c₀ (by rw [hfn]; rfl)
    rw [matchItems_rep]
    have hmax : (((' ' :: (fn.data ++ (' ' :: '(' ::
        (url.data ++ (':' :: (Ls.data ++ (':' :: (Cs.data ++ [')'])))))))).takeWhile
        jsWs)).length = 1 := by
      rw [List.takeWhile_cons]
      have hsp : jsWs ' ' = true := by decide
      rw [hsp, hfn, List.cons_append, List.takeWhile_cons, hc₀]
      rfl
    rw [hmax]
    have hk : matchItems (RItem.rep (fun c => !(c == '(')) true true ::
        RItem.rep jsWs false false :: RItem.lit '(' ::
        RItem.rep jsDot true true :: [RItem.lit ':', RItem.rep Char.isDigit true true,
        RItem.lit ':', RItem.rep Char.isDigit true true, RItem.lit ')'])
        ((' ' :: (fn.data ++ (' ' :: '(' ::
          (url.data ++ (':' :: (Ls.data ++ (':' :: (Cs.data ++ [')'])))))))).drop 1)
        = some [String.mk (fn.data ++ [' ']), url, Ls, Cs] := by
      have hdrop1 : ((' ' :: (fn.data ++ (' ' :: '(' ::
          (url.data ++ (':' :: (Ls.data ++ (':' :: (Cs.data ++ [')'])))))))).drop 1)
          = fn.data ++ (' ' :: '(' ::
            (url.data ++ (':' :: (Ls.data ++ (':' :: (Cs.data ++ [')'])))))) := rfl
      rw [hdrop1]
      exact hI
    have htop := @matchRepK_top (fun s2 => matchItems (RItem.rep (fun c => !(c == '(')) true true ::
        RItem.rep jsWs false false :: RItem.lit '(' ::
        RItem.rep jsDot true true :: [RItem.lit ':', RItem.rep Char.isDigit true true,
        RItem.lit ':', RItem.rep Char.isDigit true true, RItem.lit ')']) s2) false
      (' ' :: (fn.data ++ (' ' :: '(' ::
        (url.data ++ (':' :: (Ls.data ++ (':' :: (Cs.data ++ [')']))))))))
      (if true then 1 else 0) [String.mk (fn.data ++ [' ']), url, Ls, Cs] 1 (by simp) hk
    rw [htop]
    simp
  -- the two literals `a` `t`
  show matchItems (RItem.lit 'a' :: RItem.lit 't' :: RItem.rep jsWs true false ::
      RItem.rep (fun c => !(c == '(')) true true ::
      RItem.rep jsWs false false :: RItem.lit '(' ::
      RItem.rep jsDot true true :: [RItem.lit ':', RItem.rep Char.isDigit true true,
      RItem.lit ':', RItem.rep Char.isDigit true true, RItem.lit ')'])
      ('a' :: 't' :: ' ' :: (fn.data ++ (' ' :: '(' ::
        (url.data ++ (':' :: (Ls.data ++ (':' :: (Cs.data ++ [')']))))))))
      = some [String.mk (fn.data ++ [' ']), url, Ls, Cs]
  rw [matchItems_lit_eq, matchItems_lit_eq]
  exact hJ

theorem dropWhile_of_head_false {p : Char → Bool} {l : List Char}
    (h : ∀ c, l.head? = some c → p c = false) : l.dropWhile p = l := by
  cases l with
  | nil => rfl
  | cons a t =>
    rw [List.dropWhile_cons, h a rfl]
    simp

/-- Trimming the captured group, which is the function name followed by
the separating space, recovers exactly the function name. -/
theorem jsTrim_name_space {fn : String} (h0 : fn.data ≠ [])
    (h1 : ∀ c, fn.data.head? = some c → c.isWhitespace = false)
    (h3 : ∀ c, fn.data.getLast? = some c → c.isWhitespace = false) :
    jsTrim (String.mk (fn.data ++ [' '])) = fn := by
  show String.mk
    ((((fn.data ++ [' ']).dropWhile Char.isWhitespace).reverse.dropWhile
      Char.isWhitespace).reverse) = fn
  obtain ⟨c₀, rest, hfn⟩ : ∃ c₀ rest, fn.data = c₀ :: rest := by
    cases hd : fn.data with
    | nil => exact absurd hd h0
    | cons a b => exact ⟨a, b, rfl⟩
  have hdw : (fn.data ++ [' ']).dropWhile Char.isWhitespace = fn.data ++ [' '] := by
    apply dropWhile_of_head_false
    intro c hc
    rw [hfn, List.cons_append] at hc
    have hcc : c = c₀ := by simpa using hc.symm
    rw [hcc]
    exact h1 c₀ (by rw [hfn]; rfl)
  rw [hdw]
  have hrev : (fn.data ++ [' ']).reverse = ' ' :: fn.data.reverse := by simp
  rw [hrev, List.dropWhile_cons]
  have hsp : Char.isWhitespace ' ' = true := by decide
  rw [hsp]
  simp only [if_true]
  have hdw2 : fn.data.reverse.dropWhile Char.isWhitespace = fn.data.reverse := by
    apply dropWhile_of_head_false
    intro c hc
    rw [List.head?_reverse] at hc
    exact h3 c hc
  rw [hdw2, List.reverse_reverse]

/-- A well-formed Chrome/V8 stack line `at fn (url:L:C)`. -/
def chromeFrameLine (fn url Ls Cs : String) : String :=
  "at " ++ fn ++ " (" ++ url ++ ":" ++ Ls ++ ":" ++ Cs ++ ")"

theorem chromeFrameLine_data (fn url Ls Cs : String) :
    (chromeFrameLine fn url Ls Cs).data
      = 'a' :: 't' :: ' ' :: (fn.data ++ (' ' :: '(' ::
        (url.data ++ (':' :: (Ls.data ++ (':' :: (Cs.data ++ [')']))))))) := by
  unfold chromeFrameLine
  simp only [String.data_append, List.append_assoc]
  rfl

theorem searchFrom_cons_some {items : List RItem} {a : Char} {t : List Char}
    {caps : List String} (h : matchItems items (a :: t) = some caps) :
    searchFrom items (a :: t) = some caps := by
  unfold searchFrom
  rw [h]

/-- Claim C7: for every well-formed Chrome/V8-style line `at fn (url:L:C)`
— a nonempty function name with no `(` and no surrounding whitespace, a
nonempty URL without line terminators, and nonempty digit runs for line
and column — `extractStackFrameInfo` returns exactly that frame, with the
line and column parsed as integers; and for every line on which none of
the three supported dialect patterns matches, it returns `null`. Being a
total Lean function, the parser cannot throw on any input. -/
theorem extractStackFrameInfo_spec (fn url Ls Cs : String)
    (hfn0 : fn.data ≠ [])
    (hfn1 : ∀ c ∈ fn.data, (c == '(') = false)
    (hfn2 : ∀ c, fn.data.head? = some c → c.isWhitespace = false)
    (hfn3 : ∀ c, fn.data.getLast? = some c → c.isWhitespace = false)
    (hurl0 : url.data ≠ [])
    (hurl1 : ∀ c ∈ url.data, jsDot c = true)
    (hLs0 : Ls.data ≠ []) (hLs1 : ∀ c ∈ Ls.data, c.isDigit = true)
    (hCs0 : Cs.data ≠ []) (hCs1 : ∀ c ∈ Cs.data, c.isDigit = true) :
    extractStackFrameInfo (chromeFrameLine fn url Ls Cs)
      = some { functionName := some fn, url := url,
               line := parseIntD Ls, column := parseIntD Cs }
    ∧ ∀ s : String, searchFrom chromeFnPattern s.data = none →
        searchFrom chromeBarePattern s.data = none →
        searchFrom firefoxPattern s.data = none →
        extractStackFrameInfo s = none := by
  constructor
  · have hmatch := matchItems_chrome fn url Ls Cs hfn0 hfn1 hfn2 hurl0 hurl1 hLs0 hLs1 hCs0 hCs1
    have hsearch : searchFrom chromeFnPattern (chromeFrameLine fn url Ls Cs).data
        = some [String.mk (fn.data ++ [' ']), url, Ls, Cs] := by
      rw [chromeFrameLine_data]
      exact searchFrom_cons_some hmatch
    unfold extractStackFrameInfo
    rw [hsearch]
    show some (StackFrameInfo.mk url (parseIntD Ls) (parseIntD Cs)
        (some (jsTrim (String.mk (fn.data ++ [' '])))))
      = some (StackFrameInfo.mk url (parseIntD Ls) (parseIntD Cs) (some fn))
    rw [jsTrim_name_space hfn0 hfn2 hfn3]
  · intro s h1 h2 h3
    unfold extractStackFrameInfo
    rw [h1, h2, h3]

/-- Witness for C7: a concrete well-formed frame parses to the exact
expected values, and a line matching no dialect yields `null`. -/
theorem extractStackFrameInfo_spec_witness :
    extractStackFrameInfo (chromeFrameLine "fnName" "http://h/a.js" "10" "20")
      = some { functionName := some "fnName", url := "http://h/a.js",
               line := 10, column := 20 }
    ∧ extractStackFrameInfo "zzz" = none := by
  have h := extractStackFrameInfo_spec "fnName" "http://h/a.js" "10" "20"
    (by decide) (by decide) (by decide) (by decide) (by decide) (by decide)
    (by decide) (by decide) (by decide) (by decide)
  constructor
  · exact h.1.trans (by decide)
  · exact h.2 "zzz" (by decide) (by decide) (by decide)

end ShowComponent
